import Mathlib

/-!
Verification of the concurrent ingestion-and-freshness pipeline of the
hospital-bed monitoring panel (src/interface/interface.py).

The development embeds, faithfully to the source:
  - the AES-128-CBC / PKCS7 decryption path (`decrypt_aes_cbc_pkcs7`,
    key `KEY`, initialization vector `IV`), including full AES-128
    (FIPS-197 tables, key schedule, rounds);
  - strict UTF-8 decoding and Python-style whitespace stripping, as the
    message callback applies to the decrypted bytes;
  - the topic registry `TOPICS`, the module-level dictionaries
    `dados_cama` and `ultimos_tempos` (modelled as insertion-ordered
    association lists, matching Python dict semantics), the message
    callback `on_message`, and the freshness-filtered read path
    `api_dados`.

Timestamps (Python `time.time()` floats) are modelled as rationals.
-/

set_option maxRecDepth 40000

/-! ## GF(2^8) arithmetic used by AES -/

/-- Multiplication by x (i.e. by 2) in GF(2^8) modulo the AES polynomial
x^8 + x^4 + x^3 + x + 1 (0x11B). -/
def xtime (b : Nat) : Nat := (2*b) ^^^ (if 128 ≤ b then 283 else 0)

/-- Multiplication by 3 in GF(2^8). -/
def gmul3 (b : Nat) : Nat := xtime b ^^^ b

/-- Multiplication by 9 in GF(2^8). -/
def gmul9 (b : Nat) : Nat := xtime (xtime (xtime b)) ^^^ b

/-- Multiplication by 11 in GF(2^8). -/
def gmul11 (b : Nat) : Nat := xtime (xtime (xtime b)) ^^^ xtime b ^^^ b

/-- Multiplication by 13 in GF(2^8). -/
def gmul13 (b : Nat) : Nat := xtime (xtime (xtime b)) ^^^ xtime (xtime b) ^^^ b

/-- Multiplication by 14 in GF(2^8). -/
def gmul14 (b : Nat) : Nat := xtime (xtime (xtime b)) ^^^ xtime (xtime b) ^^^ xtime b

theorem two_mul_xor (a b : Nat) : 2*(a ^^^ b) = 2*a ^^^ 2*b := by
  have h2 : ∀ x : Nat, 2*x = x <<< 1 := fun x => by rw [Nat.shiftLeft_eq]; ring
  rw [h2, h2, h2]
  apply Nat.eq_of_testBit_eq
  intro j
  simp only [Nat.testBit_shiftLeft, Nat.testBit_xor]
  cases Decidable.em (j ≥ 1) with
  | inl h => simp [h]
  | inr h => simp [h]

theorem xor_xor_cancel_pair (x y k : Nat) : (x ^^^ k) ^^^ (y ^^^ k) = x ^^^ y := by
  apply Nat.eq_of_testBit_eq
  intro i
  simp only [Nat.testBit_xor]
  cases x.testBit i <;> cases y.testBit i <;> cases k.testBit i <;> rfl

theorem high_bit_of_lt {x : Nat} (h : x < 256) : x.testBit 7 = decide (128 ≤ x) := by
  rw [Nat.testBit_to_div_mod]
  rcases Nat.lt_or_ge x 128 with h' | h'
  · have hx : x / 128 = 0 := Nat.div_eq_of_lt h'
    simp [hx]; omega
  · have hx : x / 128 = 1 := by omega
    simp [hx]; omega

theorem byte_xor_lt {a b : Nat} (ha : a < 256) (hb : b < 256) : a ^^^ b < 256 :=
  Nat.xor_lt_two_pow (n := 8) ha hb

theorem xtime_linear {a b : Nat} (ha : a < 256) (hb : b < 256) :
    xtime (a ^^^ b) = xtime a ^^^ xtime b := by
  have hxb : a ^^^ b < 256 := byte_xor_lt ha hb
  have hbit := Nat.testBit_xor a b 7
  rw [high_bit_of_lt ha, high_bit_of_lt hb, high_bit_of_lt hxb] at hbit
  unfold xtime
  rw [two_mul_xor]
  rcases Decidable.em (128 ≤ a) with hA | hA <;> rcases Decidable.em (128 ≤ b) with hB | hB
  · simp only [hA, hB, decide_True, Bool.true_xor, Bool.not_true,
      decide_eq_false_iff_not] at hbit
    rw [if_neg hbit, if_pos hA, if_pos hB, xor_xor_cancel_pair, Nat.xor_zero]
  · simp only [hA, hB, decide_True, decide_False, Bool.true_xor, Bool.not_false,
      decide_eq_true_eq] at hbit
    rw [if_pos hbit, if_pos hA, if_neg hB, Nat.xor_zero, Nat.xor_assoc]
    apply Nat.eq_of_testBit_eq; intro i
    simp only [Nat.testBit_xor]
    cases (2*a).testBit i <;> cases (2*b).testBit i <;> cases (283:Nat).testBit i <;> rfl
  · simp only [hA, hB, decide_True, decide_False, Bool.false_xor,
      decide_eq_true_eq] at hbit
    rw [if_pos hbit, if_neg hA, if_pos hB, Nat.xor_zero]
    apply Nat.eq_of_testBit_eq; intro i
    simp only [Nat.testBit_xor]
    cases (2*a).testBit i <;> cases (2*b).testBit i <;> cases (283:Nat).testBit i <;> rfl
  · simp only [hA, hB, decide_False, Bool.false_xor, decide_eq_false_iff_not] at hbit
    rw [if_neg hbit, if_neg hA, if_neg hB, Nat.xor_zero, Nat.xor_zero, Nat.xor_zero]

theorem xtime_byte : ∀ b < 256, xtime b < 256 := by decide

theorem xtime_zero : xtime 0 = 0 := by decide
/-- Standard AES S-box table (FIPS-197), as used by the AES library the source calls. -/
def sboxTable : List Nat :=
  [99, 124, 119, 123, 242, 107, 111, 197, 48, 1, 103, 43, 254, 215, 171, 118, 202, 130, 201,
   125, 250, 89, 71, 240, 173, 212, 162, 175, 156, 164, 114, 192, 183, 253, 147, 38, 54, 63,
   247, 204, 52, 165, 229, 241, 113, 216, 49, 21, 4, 199, 35, 195, 24, 150, 5, 154, 7, 18, 128,
   226, 235, 39, 178, 117, 9, 131, 44, 26, 27, 110, 90, 160, 82, 59, 214, 179, 41, 227, 47, 132,
   83, 209, 0, 237, 32, 252, 177, 91, 106, 203, 190, 57, 74, 76, 88, 207, 208, 239, 170, 251,
   67, 77, 51, 133, 69, 249, 2, 127, 80, 60, 159, 168, 81, 163, 64, 143, 146, 157, 56, 245, 188,
   182, 218, 33, 16, 255, 243, 210, 205, 12, 19, 236, 95, 151, 68, 23, 196, 167, 126, 61, 100,
   93, 25, 115, 96, 129, 79, 220, 34, 42, 144, 136, 70, 238, 184, 20, 222, 94, 11, 219, 224, 50,
   58, 10, 73, 6, 36, 92, 194, 211, 172, 98, 145, 149, 228, 121, 231, 200, 55, 109, 141, 213,
   78, 169, 108, 86, 244, 234, 101, 122, 174, 8, 186, 120, 37, 46, 28, 166, 180, 198, 232, 221,
   116, 31, 75, 189, 139, 138, 112, 62, 181, 102, 72, 3, 246, 14, 97, 53, 87, 185, 134, 193, 29,
   158, 225, 248, 152, 17, 105, 217, 142, 148, 155, 30, 135, 233, 206, 85, 40, 223, 140, 161,
   137, 13, 191, 230, 66, 104, 65, 153, 45, 15, 176, 84, 187, 22]

/-- Standard AES inverse S-box table (FIPS-197). -/
def invSboxTable : List Nat :=
  [82, 9, 106, 213, 48, 54, 165, 56, 191, 64, 163, 158, 129, 243, 215, 251, 124, 227, 57, 130,
   155, 47, 255, 135, 52, 142, 67, 68, 196, 222, 233, 203, 84, 123, 148, 50, 166, 194, 35, 61,
   238, 76, 149, 11, 66, 250, 195, 78, 8, 46, 161, 102, 40, 217, 36, 178, 118, 91, 162, 73, 109,
   139, 209, 37, 114, 248, 246, 100, 134, 104, 152, 22, 212, 164, 92, 204, 93, 101, 182, 146,
   108, 112, 72, 80, 253, 237, 185, 218, 94, 21, 70, 87, 167, 141, 157, 132, 144, 216, 171, 0,
   140, 188, 211, 10, 247, 228, 88, 5, 184, 179, 69, 6, 208, 44, 30, 143, 202, 63, 15, 2, 193,
   175, 189, 3, 1, 19, 138, 107, 58, 145, 17, 65, 79, 103, 220, 234, 151, 242, 207, 206, 240,
   180, 230, 115, 150, 172, 116, 34, 231, 173, 53, 133, 226, 249, 55, 232, 28, 117, 223, 110,
   71, 241, 26, 113, 29, 41, 197, 137, 111, 183, 98, 14, 170, 24, 190, 27, 252, 86, 62, 75, 198,
   210, 121, 32, 154, 219, 192, 254, 120, 205, 90, 244, 31, 221, 168, 51, 136, 7, 199, 49, 177,
   18, 16, 89, 39, 128, 236, 95, 96, 81, 127, 169, 25, 181, 74, 13, 45, 229, 122, 159, 147, 201,
   156, 239, 160, 224, 59, 77, 174, 42, 245, 176, 200, 235, 187, 60, 131, 83, 153, 97, 23, 43,
   4, 126, 186, 119, 214, 38, 225, 105, 20, 99, 85, 33, 12, 125]

/-- Forward S-box lookup (out-of-range inputs give the default 0, which
never occurs on byte inputs). -/
def sboxFn (b : Nat) : Nat := sboxTable.getD b 0

/-- Inverse S-box lookup. -/
def invSboxFn (b : Nat) : Nat := invSboxTable.getD b 0

theorem invSbox_sbox : ∀ b < 256, invSboxFn (sboxFn b) = b := by decide

theorem sboxFn_byte : ∀ b < 256, sboxFn b < 256 := by decide

theorem invSboxFn_byte : ∀ b < 256, invSboxFn b < 256 := by decide

/-! ## MixColumns on a single column -/

/-- Byte quadruple: one AES state column. -/
def Byte4 (u : Nat × Nat × Nat × Nat) : Prop :=
  u.1 < 256 ∧ u.2.1 < 256 ∧ u.2.2.1 < 256 ∧ u.2.2.2 < 256

/-- MixColumns on one column (FIPS-197 matrix [2 3 1 1; 1 2 3 1; 1 1 2 3; 3 1 1 2]). -/
def mixColT : Nat × Nat × Nat × Nat → Nat × Nat × Nat × Nat
  | (a0, a1, a2, a3) =>
    (xtime a0 ^^^ gmul3 a1 ^^^ a2 ^^^ a3,
     a0 ^^^ xtime a1 ^^^ gmul3 a2 ^^^ a3,
     a0 ^^^ a1 ^^^ xtime a2 ^^^ gmul3 a3,
     gmul3 a0 ^^^ a1 ^^^ a2 ^^^ xtime a3)

/-- Inverse MixColumns on one column (matrix [14 11 13 9; 9 14 11 13; 13 9 14 11; 11 13 9 14]). -/
def invMixColT : Nat × Nat × Nat × Nat → Nat × Nat × Nat × Nat
  | (a0, a1, a2, a3) =>
    (gmul14 a0 ^^^ gmul11 a1 ^^^ gmul13 a2 ^^^ gmul9 a3,
     gmul9 a0 ^^^ gmul14 a1 ^^^ gmul11 a2 ^^^ gmul13 a3,
     gmul13 a0 ^^^ gmul9 a1 ^^^ gmul14 a2 ^^^ gmul11 a3,
     gmul11 a0 ^^^ gmul13 a1 ^^^ gmul9 a2 ^^^ gmul14 a3)

/-- Componentwise xor of two columns. -/
def xor4 : (Nat × Nat × Nat × Nat) → (Nat × Nat × Nat × Nat) → (Nat × Nat × Nat × Nat)
  | (a0, a1, a2, a3), (b0, b1, b2, b3) => (a0 ^^^ b0, a1 ^^^ b1, a2 ^^^ b2, a3 ^^^ b3)

theorem xor_swap_pairs (w x y z : Nat) : (w ^^^ x) ^^^ (y ^^^ z) = (w ^^^ y) ^^^ (x ^^^ z) := by
  apply Nat.eq_of_testBit_eq; intro i
  simp only [Nat.testBit_xor]
  cases w.testBit i <;> cases x.testBit i <;> cases y.testBit i <;> cases z.testBit i <;> rfl

theorem xor_ac8 (p q r s p' q' r' s' : Nat) :
    (((p ^^^ q) ^^^ r) ^^^ s) ^^^ (((p' ^^^ q') ^^^ r') ^^^ s')
      = (((p ^^^ p') ^^^ (q ^^^ q')) ^^^ (r ^^^ r')) ^^^ (s ^^^ s') := by
  apply Nat.eq_of_testBit_eq; intro i
  simp only [Nat.testBit_xor]
  cases p.testBit i <;> cases q.testBit i <;> cases r.testBit i <;> cases s.testBit i <;>
    cases p'.testBit i <;> cases q'.testBit i <;> cases r'.testBit i <;> cases s'.testBit i <;> rfl

theorem xtime2_linear {a b : Nat} (ha : a < 256) (hb : b < 256) :
    xtime (xtime (a ^^^ b)) = xtime (xtime a) ^^^ xtime (xtime b) := by
  rw [xtime_linear ha hb, xtime_linear (xtime_byte a ha) (xtime_byte b hb)]

theorem xtime3_linear {a b : Nat} (ha : a < 256) (hb : b < 256) :
    xtime (xtime (xtime (a ^^^ b))) = xtime (xtime (xtime a)) ^^^ xtime (xtime (xtime b)) := by
  rw [xtime2_linear ha hb,
    xtime_linear (xtime_byte _ (xtime_byte a ha)) (xtime_byte _ (xtime_byte b hb))]

theorem gmul3_linear {a b : Nat} (ha : a < 256) (hb : b < 256) :
    gmul3 (a ^^^ b) = gmul3 a ^^^ gmul3 b := by
  unfold gmul3
  rw [xtime_linear ha hb, xor_swap_pairs]

theorem gmul9_linear {a b : Nat} (ha : a < 256) (hb : b < 256) :
    gmul9 (a ^^^ b) = gmul9 a ^^^ gmul9 b := by
  unfold gmul9
  rw [xtime3_linear ha hb, xor_swap_pairs]

theorem gmul11_linear {a b : Nat} (ha : a < 256) (hb : b < 256) :
    gmul11 (a ^^^ b) = gmul11 a ^^^ gmul11 b := by
  unfold gmul11
  rw [xtime3_linear ha hb, xtime_linear ha hb]
  apply Nat.eq_of_testBit_eq; intro i
  simp only [Nat.testBit_xor]
  cases (xtime (xtime (xtime a))).testBit i <;> cases (xtime (xtime (xtime b))).testBit i <;>
    cases (xtime a).testBit i <;> cases (xtime b).testBit i <;>
    cases a.testBit i <;> cases b.testBit i <;> rfl

theorem gmul13_linear {a b : Nat} (ha : a < 256) (hb : b < 256) :
    gmul13 (a ^^^ b) = gmul13 a ^^^ gmul13 b := by
  unfold gmul13
  rw [xtime3_linear ha hb, xtime2_linear ha hb]
  apply Nat.eq_of_testBit_eq; intro i
  simp only [Nat.testBit_xor]
  cases (xtime (xtime (xtime a))).testBit i <;> cases (xtime (xtime (xtime b))).testBit i <;>
    cases (xtime (xtime a)).testBit i <;> cases (xtime (xtime b)).testBit i <;>
    cases a.testBit i <;> cases b.testBit i <;> rfl

theorem gmul14_linear {a b : Nat} (ha : a < 256) (hb : b < 256) :
    gmul14 (a ^^^ b) = gmul14 a ^^^ gmul14 b := by
  unfold gmul14
  rw [xtime3_linear ha hb, xtime2_linear ha hb, xtime_linear ha hb]
  apply Nat.eq_of_testBit_eq; intro i
  simp only [Nat.testBit_xor]
  cases (xtime (xtime (xtime a))).testBit i <;> cases (xtime (xtime (xtime b))).testBit i <;>
    cases (xtime (xtime a)).testBit i <;> cases (xtime (xtime b)).testBit i <;>
    cases (xtime a).testBit i <;> cases (xtime b).testBit i <;> rfl

theorem gmul3_byte : ∀ b < 256, gmul3 b < 256 := by decide
theorem gmul9_byte : ∀ b < 256, gmul9 b < 256 := by decide
theorem gmul11_byte : ∀ b < 256, gmul11 b < 256 := by decide
theorem gmul13_byte : ∀ b < 256, gmul13 b < 256 := by decide
theorem gmul14_byte : ∀ b < 256, gmul14 b < 256 := by decide

theorem mixColT_linear {u v : Nat × Nat × Nat × Nat} (hu : Byte4 u) (hv : Byte4 v) :
    mixColT (xor4 u v) = xor4 (mixColT u) (mixColT v) := by
  obtain ⟨a0, a1, a2, a3⟩ := u
  obtain ⟨b0, b1, b2, b3⟩ := v
  obtain ⟨h0, h1, h2, h3⟩ := hu
  obtain ⟨g0, g1, g2, g3⟩ := hv
  simp only [mixColT, xor4, Prod.mk.injEq]
  refine ⟨?_, ?_, ?_, ?_⟩
  · rw [xtime_linear h0 g0, gmul3_linear h1 g1]; exact (xor_ac8 _ _ _ _ _ _ _ _).symm
  · rw [xtime_linear h1 g1, gmul3_linear h2 g2]; exact (xor_ac8 _ _ _ _ _ _ _ _).symm
  · rw [xtime_linear h2 g2, gmul3_linear h3 g3]; exact (xor_ac8 _ _ _ _ _ _ _ _).symm
  · rw [gmul3_linear h0 g0, xtime_linear h3 g3]; exact (xor_ac8 _ _ _ _ _ _ _ _).symm

theorem invMixColT_linear {u v : Nat × Nat × Nat × Nat} (hu : Byte4 u) (hv : Byte4 v) :
    invMixColT (xor4 u v) = xor4 (invMixColT u) (invMixColT v) := by
  obtain ⟨a0, a1, a2, a3⟩ := u
  obtain ⟨b0, b1, b2, b3⟩ := v
  obtain ⟨h0, h1, h2, h3⟩ := hu
  obtain ⟨g0, g1, g2, g3⟩ := hv
  simp only [invMixColT, xor4, Prod.mk.injEq]
  refine ⟨?_, ?_, ?_, ?_⟩
  · rw [gmul14_linear h0 g0, gmul11_linear h1 g1, gmul13_linear h2 g2, gmul9_linear h3 g3]
    exact (xor_ac8 _ _ _ _ _ _ _ _).symm
  · rw [gmul9_linear h0 g0, gmul14_linear h1 g1, gmul11_linear h2 g2, gmul13_linear h3 g3]
    exact (xor_ac8 _ _ _ _ _ _ _ _).symm
  · rw [gmul13_linear h0 g0, gmul9_linear h1 g1, gmul14_linear h2 g2, gmul11_linear h3 g3]
    exact (xor_ac8 _ _ _ _ _ _ _ _).symm
  · rw [gmul11_linear h0 g0, gmul13_linear h1 g1, gmul9_linear h2 g2, gmul14_linear h3 g3]
    exact (xor_ac8 _ _ _ _ _ _ _ _).symm

theorem invMix_mix_basis0 : ∀ a < 256, invMixColT (mixColT (a, 0, 0, 0)) = (a, 0, 0, 0) := by decide
theorem invMix_mix_basis1 : ∀ a < 256, invMixColT (mixColT (0, a, 0, 0)) = (0, a, 0, 0) := by decide
theorem invMix_mix_basis2 : ∀ a < 256, invMixColT (mixColT (0, 0, a, 0)) = (0, 0, a, 0) := by decide
theorem invMix_mix_basis3 : ∀ a < 256, invMixColT (mixColT (0, 0, 0, a)) = (0, 0, 0, a) := by decide

theorem mixColT_byte {u : Nat × Nat × Nat × Nat} (hu : Byte4 u) : Byte4 (mixColT u) := by
  obtain ⟨a0, a1, a2, a3⟩ := u
  obtain ⟨h0, h1, h2, h3⟩ := hu
  refine ⟨?_, ?_, ?_, ?_⟩ <;>
    exact byte_xor_lt (byte_xor_lt (byte_xor_lt (by first
      | exact xtime_byte _ (by assumption)
      | exact gmul3_byte _ (by assumption)
      | assumption) (by first
      | exact xtime_byte _ (by assumption)
      | exact gmul3_byte _ (by assumption)
      | assumption)) (by first
      | exact xtime_byte _ (by assumption)
      | exact gmul3_byte _ (by assumption)
      | assumption)) (by first
      | exact xtime_byte _ (by assumption)
      | exact gmul3_byte _ (by assumption)
      | assumption)

theorem xor4_zero_decomp (a0 a1 a2 a3 : Nat) :
    xor4 (a0, 0, 0, 0) (xor4 (0, a1, 0, 0) (xor4 (0, 0, a2, 0) (0, 0, 0, a3)))
      = (a0, a1, a2, a3) := by
  simp [xor4, Nat.xor_zero, Nat.zero_xor]

theorem xor4_byte {u v : Nat × Nat × Nat × Nat} (hu : Byte4 u) (hv : Byte4 v) :
    Byte4 (xor4 u v) := by
  obtain ⟨a0, a1, a2, a3⟩ := u
  obtain ⟨b0, b1, b2, b3⟩ := v
  obtain ⟨h0, h1, h2, h3⟩ := hu
  obtain ⟨g0, g1, g2, g3⟩ := hv
  exact ⟨byte_xor_lt h0 g0, byte_xor_lt h1 g1, byte_xor_lt h2 g2, byte_xor_lt h3 g3⟩

theorem invMix_mix {a0 a1 a2 a3 : Nat}
    (h0 : a0 < 256) (h1 : a1 < 256) (h2 : a2 < 256) (h3 : a3 < 256) :
    invMixColT (mixColT (a0, a1, a2, a3)) = (a0, a1, a2, a3) := by
  have hz : (0:Nat) < 256 := by norm_num
  have b0 : Byte4 (a0, 0, 0, 0) := ⟨h0, hz, hz, hz⟩
  have b1 : Byte4 (0, a1, 0, 0) := ⟨hz, h1, hz, hz⟩
  have b2 : Byte4 (0, 0, a2, 0) := ⟨hz, hz, h2, hz⟩
  have b3 : Byte4 (0, 0, 0, a3) := ⟨hz, hz, hz, h3⟩
  have hx23 : Byte4 (xor4 (0, 0, a2, 0) (0, 0, 0, a3)) := xor4_byte b2 b3
  have hx123 : Byte4 (xor4 (0, a1, 0, 0) (xor4 (0, 0, a2, 0) (0, 0, 0, a3))) :=
    xor4_byte b1 hx23
  calc invMixColT (mixColT (a0, a1, a2, a3))
      = invMixColT (mixColT (xor4 (a0, 0, 0, 0)
          (xor4 (0, a1, 0, 0) (xor4 (0, 0, a2, 0) (0, 0, 0, a3))))) := by
        rw [xor4_zero_decomp]
    _ = invMixColT (xor4 (mixColT (a0, 0, 0, 0))
          (xor4 (mixColT (0, a1, 0, 0))
            (xor4 (mixColT (0, 0, a2, 0)) (mixColT (0, 0, 0, a3))))) := by
        rw [mixColT_linear b0 hx123, mixColT_linear b1 hx23, mixColT_linear b2 b3]
    _ = xor4 (invMixColT (mixColT (a0, 0, 0, 0)))
          (xor4 (invMixColT (mixColT (0, a1, 0, 0)))
            (xor4 (invMixColT (mixColT (0, 0, a2, 0)))
              (invMixColT (mixColT (0, 0, 0, a3))))) := by
        rw [invMixColT_linear (mixColT_byte b0)
              (xor4_byte (mixColT_byte b1) (xor4_byte (mixColT_byte b2) (mixColT_byte b3))),
            invMixColT_linear (mixColT_byte b1)
              (xor4_byte (mixColT_byte b2) (mixColT_byte b3)),
            invMixColT_linear (mixColT_byte b2) (mixColT_byte b3)]
    _ = (a0, a1, a2, a3) := by
        rw [invMix_mix_basis0 a0 h0, invMix_mix_basis1 a1 h1,
            invMix_mix_basis2 a2 h2, invMix_mix_basis3 a3 h3, xor4_zero_decomp]

/-! ## AES state operations (state = flat list of 16 bytes, column-major) -/

/-- Bytes predicate: every entry fits in one byte. -/
def ByteVec (l : List Nat) : Prop := ∀ b ∈ l, b < 256

/-- SubBytes: apply the S-box to every state byte. -/
def subBytes (s : List Nat) : List Nat := s.map sboxFn

/-- InvSubBytes. -/
def invSubBytes (s : List Nat) : List Nat := s.map invSboxFn

/-- ShiftRows on the flat column-major state: row r rotates left by r. -/
def shiftRows : List Nat → List Nat
  | [a0, a1, a2, a3, a4, a5, a6, a7, a8, a9, a10, a11, a12, a13, a14, a15] =>
    [a0, a5, a10, a15, a4, a9, a14, a3, a8, a13, a2, a7, a12, a1, a6, a11]
  | s => s

/-- InvShiftRows: row r rotates right by r. -/
def invShiftRows : List Nat → List Nat
  | [a0, a1, a2, a3, a4, a5, a6, a7, a8, a9, a10, a11, a12, a13, a14, a15] =>
    [a0, a13, a10, a7, a4, a1, a14, a11, a8, a5, a2, a15, a12, a9, a6, a3]
  | s => s

/-- Four state bytes as a list. -/
def colToList : Nat × Nat × Nat × Nat → List Nat
  | (a0, a1, a2, a3) => [a0, a1, a2, a3]

/-- MixColumns on the flat state: each group of 4 consecutive bytes is a column. -/
def mixColumns : List Nat → List Nat
  | [a0, a1, a2, a3, a4, a5, a6, a7, a8, a9, a10, a11, a12, a13, a14, a15] =>
    colToList (mixColT (a0, a1, a2, a3)) ++ colToList (mixColT (a4, a5, a6, a7)) ++
    colToList (mixColT (a8, a9, a10, a11)) ++ colToList (mixColT (a12, a13, a14, a15))
  | s => s

/-- InvMixColumns on the flat state. -/
def invMixColumns : List Nat → List Nat
  | [a0, a1, a2, a3, a4, a5, a6, a7, a8, a9, a10, a11, a12, a13, a14, a15] =>
    colToList (invMixColT (a0, a1, a2, a3)) ++ colToList (invMixColT (a4, a5, a6, a7)) ++
    colToList (invMixColT (a8, a9, a10, a11)) ++ colToList (invMixColT (a12, a13, a14, a15))
  | s => s

/-- AddRoundKey: xor the state with the round key. -/
def addRoundKey (k s : List Nat) : List Nat := List.zipWith (fun a b => a ^^^ b) s k

theorem list16_ex {α : Type _} {s : List α} (h : s.length = 16) :
    ∃ a0 a1 a2 a3 a4 a5 a6 a7 a8 a9 a10 a11 a12 a13 a14 a15,
      s = [a0, a1, a2, a3, a4, a5, a6, a7, a8, a9, a10, a11, a12, a13, a14, a15] := by
  obtain _ | ⟨a0, s⟩ := s; · simp at h
  obtain _ | ⟨a1, s⟩ := s; · simp at h
  obtain _ | ⟨a2, s⟩ := s; · simp at h
  obtain _ | ⟨a3, s⟩ := s; · simp at h
  obtain _ | ⟨a4, s⟩ := s; · simp at h
  obtain _ | ⟨a5, s⟩ := s; · simp at h
  obtain _ | ⟨a6, s⟩ := s; · simp at h
  obtain _ | ⟨a7, s⟩ := s; · simp at h
  obtain _ | ⟨a8, s⟩ := s; · simp at h
  obtain _ | ⟨a9, s⟩ := s; · simp at h
  obtain _ | ⟨a10, s⟩ := s; · simp at h
  obtain _ | ⟨a11, s⟩ := s; · simp at h
  obtain _ | ⟨a12, s⟩ := s; · simp at h
  obtain _ | ⟨a13, s⟩ := s; · simp at h
  obtain _ | ⟨a14, s⟩ := s; · simp at h
  obtain _ | ⟨a15, s⟩ := s; · simp at h
  obtain _ | ⟨a16, s⟩ := s
  · exact ⟨a0, a1, a2, a3, a4, a5, a6, a7, a8, a9, a10, a11, a12, a13, a14, a15, rfl⟩
  · simp at h
theorem invShiftRows_shiftRows (s : List Nat) : invShiftRows (shiftRows s) = s := by
  rcases s with _|⟨a0,_|⟨a1,_|⟨a2,_|⟨a3,_|⟨a4,_|⟨a5,_|⟨a6,_|⟨a7,_|⟨a8,_|⟨a9,_|⟨a10,_|⟨a11,_|⟨a12,_|⟨a13,_|⟨a14,_|⟨a15,_|⟨a16,s⟩⟩⟩⟩⟩⟩⟩⟩⟩⟩⟩⟩⟩⟩⟩⟩⟩
  all_goals rfl

theorem shiftRows_invShiftRows (s : List Nat) : shiftRows (invShiftRows s) = s := by
  rcases s with _|⟨a0,_|⟨a1,_|⟨a2,_|⟨a3,_|⟨a4,_|⟨a5,_|⟨a6,_|⟨a7,_|⟨a8,_|⟨a9,_|⟨a10,_|⟨a11,_|⟨a12,_|⟨a13,_|⟨a14,_|⟨a15,_|⟨a16,s⟩⟩⟩⟩⟩⟩⟩⟩⟩⟩⟩⟩⟩⟩⟩⟩⟩
  all_goals rfl

theorem shiftRows_length (s : List Nat) : (shiftRows s).length = s.length := by
  rcases s with _|⟨a0,_|⟨a1,_|⟨a2,_|⟨a3,_|⟨a4,_|⟨a5,_|⟨a6,_|⟨a7,_|⟨a8,_|⟨a9,_|⟨a10,_|⟨a11,_|⟨a12,_|⟨a13,_|⟨a14,_|⟨a15,_|⟨a16,s⟩⟩⟩⟩⟩⟩⟩⟩⟩⟩⟩⟩⟩⟩⟩⟩⟩
  all_goals rfl

theorem invShiftRows_length (s : List Nat) : (invShiftRows s).length = s.length := by
  rcases s with _|⟨a0,_|⟨a1,_|⟨a2,_|⟨a3,_|⟨a4,_|⟨a5,_|⟨a6,_|⟨a7,_|⟨a8,_|⟨a9,_|⟨a10,_|⟨a11,_|⟨a12,_|⟨a13,_|⟨a14,_|⟨a15,_|⟨a16,s⟩⟩⟩⟩⟩⟩⟩⟩⟩⟩⟩⟩⟩⟩⟩⟩⟩
  all_goals rfl

theorem mem_shiftRows {s : List Nat} {b : Nat} (hb : b ∈ shiftRows s) : b ∈ s := by
  rcases s with _|⟨a0,_|⟨a1,_|⟨a2,_|⟨a3,_|⟨a4,_|⟨a5,_|⟨a6,_|⟨a7,_|⟨a8,_|⟨a9,_|⟨a10,_|⟨a11,_|⟨a12,_|⟨a13,_|⟨a14,_|⟨a15,_|⟨a16,s⟩⟩⟩⟩⟩⟩⟩⟩⟩⟩⟩⟩⟩⟩⟩⟩⟩
  all_goals first
    | exact hb
    | (simp only [shiftRows, List.mem_cons, List.not_mem_nil, or_false] at hb ⊢; tauto)

theorem mem_invShiftRows {s : List Nat} {b : Nat} (hb : b ∈ invShiftRows s) : b ∈ s := by
  rcases s with _|⟨a0,_|⟨a1,_|⟨a2,_|⟨a3,_|⟨a4,_|⟨a5,_|⟨a6,_|⟨a7,_|⟨a8,_|⟨a9,_|⟨a10,_|⟨a11,_|⟨a12,_|⟨a13,_|⟨a14,_|⟨a15,_|⟨a16,s⟩⟩⟩⟩⟩⟩⟩⟩⟩⟩⟩⟩⟩⟩⟩⟩⟩
  all_goals first
    | exact hb
    | (simp only [invShiftRows, List.mem_cons, List.not_mem_nil, or_false] at hb ⊢; tauto)

theorem sboxFn_byte_all (b : Nat) : sboxFn b < 256 := by
  by_cases hb : b < 256
  · exact sboxFn_byte b hb
  · unfold sboxFn
    rw [List.getD_eq_default]
    · norm_num
    · have hlen : sboxTable.length = 256 := by rfl
      omega

theorem invSboxFn_byte_all (b : Nat) : invSboxFn b < 256 := by
  by_cases hb : b < 256
  · exact invSboxFn_byte b hb
  · unfold invSboxFn
    rw [List.getD_eq_default]
    · norm_num
    · have hlen : invSboxTable.length = 256 := by rfl
      omega

theorem invSub_sub {s : List Nat} (h : ByteVec s) : invSubBytes (subBytes s) = s := by
  induction s with
  | nil => rfl
  | cons a t ih =>
    have ha : a < 256 := h a (by simp)
    have ht : ByteVec t := fun b hb => h b (by simp [hb])
    simp only [subBytes, invSubBytes, List.map_cons] at ih ⊢
    rw [invSbox_sbox a ha]
    exact congrArg (a :: ·) (ih ht)

theorem subBytes_bytevec (s : List Nat) : ByteVec (subBytes s) := by
  intro b hb
  simp only [subBytes, List.mem_map] at hb
  obtain ⟨a, _, rfl⟩ := hb
  exact sboxFn_byte_all a

theorem invSubBytes_bytevec (s : List Nat) : ByteVec (invSubBytes s) := by
  intro b hb
  simp only [invSubBytes, List.mem_map] at hb
  obtain ⟨a, _, rfl⟩ := hb
  exact invSboxFn_byte_all a

theorem subBytes_length (s : List Nat) : (subBytes s).length = s.length := List.length_map s _

theorem invSubBytes_length (s : List Nat) : (invSubBytes s).length = s.length := List.length_map s _

theorem addRoundKey_cancel : ∀ (s k : List Nat), s.length ≤ k.length →
    addRoundKey k (addRoundKey k s) = s := by
  intro s
  induction s with
  | nil => intro k _; rfl
  | cons a t ih =>
    intro k hk
    obtain _ | ⟨b, k⟩ := k
    · simp at hk
    · simp only [addRoundKey, List.zipWith_cons_cons]
      have hx : (a ^^^ b) ^^^ b = a := by
        rw [Nat.xor_assoc, Nat.xor_self, Nat.xor_zero]
      rw [hx]
      have ht := ih k (by simpa using hk)
      simp only [addRoundKey] at ht
      rw [ht]

theorem addRoundKey_length (k s : List Nat) :
    (addRoundKey k s).length = min s.length k.length := List.length_zipWith _ _ _

theorem addRoundKey_bytevec {k s : List Nat} (hk : ByteVec k) (hs : ByteVec s) :
    ByteVec (addRoundKey k s) := by
  intro b hb
  simp only [addRoundKey] at hb
  obtain ⟨i, hlt, hi⟩ := List.mem_iff_getElem.mp hb
  rw [List.getElem_zipWith] at hi
  subst hi
  apply byte_xor_lt
  · exact hs _ (List.getElem_mem _)
  · exact hk _ (List.getElem_mem _)

theorem mixColumns_length {s : List Nat} (hlen : s.length = 16) :
    (mixColumns s).length = 16 := by
  obtain ⟨a0,a1,a2,a3,a4,a5,a6,a7,a8,a9,a10,a11,a12,a13,a14,a15,rfl⟩ := list16_ex hlen
  rfl

theorem invMixColumns_length {s : List Nat} (hlen : s.length = 16) :
    (invMixColumns s).length = 16 := by
  obtain ⟨a0,a1,a2,a3,a4,a5,a6,a7,a8,a9,a10,a11,a12,a13,a14,a15,rfl⟩ := list16_ex hlen
  rfl

theorem invMixColumns_mixColumns {s : List Nat} (hlen : s.length = 16) (h : ByteVec s) :
    invMixColumns (mixColumns s) = s := by
  obtain ⟨a0,a1,a2,a3,a4,a5,a6,a7,a8,a9,a10,a11,a12,a13,a14,a15,rfl⟩ := list16_ex hlen
  have h0 : a0 < 256 := h _ (by simp)
  have h1 : a1 < 256 := h _ (by simp)
  have h2 : a2 < 256 := h _ (by simp)
  have h3 : a3 < 256 := h _ (by simp)
  have h4 : a4 < 256 := h _ (by simp)
  have h5 : a5 < 256 := h _ (by simp)
  have h6 : a6 < 256 := h _ (by simp)
  have h7 : a7 < 256 := h _ (by simp)
  have h8 : a8 < 256 := h _ (by simp)
  have h9 : a9 < 256 := h _ (by simp)
  have h10 : a10 < 256 := h _ (by simp)
  have h11 : a11 < 256 := h _ (by simp)
  have h12 : a12 < 256 := h _ (by simp)
  have h13 : a13 < 256 := h _ (by simp)
  have h14 : a14 < 256 := h _ (by simp)
  have h15 : a15 < 256 := h _ (by simp)
  rcases hc0 : mixColT (a0,a1,a2,a3) with ⟨c0,c1,c2,c3⟩
  rcases hc1 : mixColT (a4,a5,a6,a7) with ⟨c4,c5,c6,c7⟩
  rcases hc2 : mixColT (a8,a9,a10,a11) with ⟨c8,c9,c10,c11⟩
  rcases hc3 : mixColT (a12,a13,a14,a15) with ⟨c12,c13,c14,c15⟩
  have hmc : mixColumns [a0,a1,a2,a3,a4,a5,a6,a7,a8,a9,a10,a11,a12,a13,a14,a15]
      = [c0,c1,c2,c3,c4,c5,c6,c7,c8,c9,c10,c11,c12,c13,c14,c15] := by
    simp [mixColumns, hc0, hc1, hc2, hc3, colToList]
  rw [hmc]
  have himc : invMixColumns [c0,c1,c2,c3,c4,c5,c6,c7,c8,c9,c10,c11,c12,c13,c14,c15]
      = colToList (invMixColT (c0,c1,c2,c3)) ++ colToList (invMixColT (c4,c5,c6,c7)) ++
        colToList (invMixColT (c8,c9,c10,c11)) ++ colToList (invMixColT (c12,c13,c14,c15)) := rfl
  rw [himc, ← hc0, ← hc1, ← hc2, ← hc3,
      invMix_mix h0 h1 h2 h3, invMix_mix h4 h5 h6 h7,
      invMix_mix h8 h9 h10 h11, invMix_mix h12 h13 h14 h15]
  rfl

theorem mixColumns_bytevec {s : List Nat} (hlen : s.length = 16) (h : ByteVec s) :
    ByteVec (mixColumns s) := by
  obtain ⟨a0,a1,a2,a3,a4,a5,a6,a7,a8,a9,a10,a11,a12,a13,a14,a15,rfl⟩ := list16_ex hlen
  have hb : ∀ x ∈ ([a0,a1,a2,a3,a4,a5,a6,a7,a8,a9,a10,a11,a12,a13,a14,a15] : List Nat),
      x < 256 := h
  simp only [List.mem_cons, List.not_mem_nil, or_false, forall_eq_or_imp, forall_eq] at hb
  obtain ⟨h0,h1,h2,h3,h4,h5,h6,h7,h8,h9,h10,h11,h12,h13,h14,h15⟩ := hb
  have q0 := mixColT_byte (u := (a0,a1,a2,a3)) ⟨h0,h1,h2,h3⟩
  have q1 := mixColT_byte (u := (a4,a5,a6,a7)) ⟨h4,h5,h6,h7⟩
  have q2 := mixColT_byte (u := (a8,a9,a10,a11)) ⟨h8,h9,h10,h11⟩
  have q3 := mixColT_byte (u := (a12,a13,a14,a15)) ⟨h12,h13,h14,h15⟩
  rcases hc0 : mixColT (a0,a1,a2,a3) with ⟨c0,c1,c2,c3⟩
  rcases hc1 : mixColT (a4,a5,a6,a7) with ⟨c4,c5,c6,c7⟩
  rcases hc2 : mixColT (a8,a9,a10,a11) with ⟨c8,c9,c10,c11⟩
  rcases hc3 : mixColT (a12,a13,a14,a15) with ⟨c12,c13,c14,c15⟩
  rw [hc0] at q0; rw [hc1] at q1; rw [hc2] at q2; rw [hc3] at q3
  obtain ⟨p0,p1,p2,p3⟩ := q0
  obtain ⟨p4,p5,p6,p7⟩ := q1
  obtain ⟨p8,p9,p10,p11⟩ := q2
  obtain ⟨p12,p13,p14,p15⟩ := q3
  intro b hb
  simp only [mixColumns, hc0, hc1, hc2, hc3, colToList, List.cons_append, List.nil_append,
    List.mem_cons, List.not_mem_nil, or_false] at hb
  rcases hb with rfl|rfl|rfl|rfl|rfl|rfl|rfl|rfl|rfl|rfl|rfl|rfl|rfl|rfl|rfl|rfl <;> assumption

theorem invMixColumns_bytevec {s : List Nat} (hlen : s.length = 16) (h : ByteVec s) :
    ByteVec (invMixColumns s) := by
  obtain ⟨a0,a1,a2,a3,a4,a5,a6,a7,a8,a9,a10,a11,a12,a13,a14,a15,rfl⟩ := list16_ex hlen
  have hb : ∀ x ∈ ([a0,a1,a2,a3,a4,a5,a6,a7,a8,a9,a10,a11,a12,a13,a14,a15] : List Nat),
      x < 256 := h
  simp only [List.mem_cons, List.not_mem_nil, or_false, forall_eq_or_imp, forall_eq] at hb
  obtain ⟨h0,h1,h2,h3,h4,h5,h6,h7,h8,h9,h10,h11,h12,h13,h14,h15⟩ := hb
  have hz : (0:Nat) < 256 := by norm_num
  have gb : ∀ x < 256, ∀ y < 256, ∀ z < 256, ∀ w < 256,
      gmul14 x ^^^ gmul11 y ^^^ gmul13 z ^^^ gmul9 w < 256 := fun x hx y hy z hz' w hw =>
    byte_xor_lt (byte_xor_lt (byte_xor_lt (gmul14_byte x hx) (gmul11_byte y hy))
      (gmul13_byte z hz')) (gmul9_byte w hw)
  have gb2 : ∀ x < 256, ∀ y < 256, ∀ z < 256, ∀ w < 256,
      gmul9 x ^^^ gmul14 y ^^^ gmul11 z ^^^ gmul13 w < 256 := fun x hx y hy z hz' w hw =>
    byte_xor_lt (byte_xor_lt (byte_xor_lt (gmul9_byte x hx) (gmul14_byte y hy))
      (gmul11_byte z hz')) (gmul13_byte w hw)
  have gb3 : ∀ x < 256, ∀ y < 256, ∀ z < 256, ∀ w < 256,
      gmul13 x ^^^ gmul9 y ^^^ gmul14 z ^^^ gmul11 w < 256 := fun x hx y hy z hz' w hw =>
    byte_xor_lt (byte_xor_lt (byte_xor_lt (gmul13_byte x hx) (gmul9_byte y hy))
      (gmul14_byte z hz')) (gmul11_byte w hw)
  have gb4 : ∀ x < 256, ∀ y < 256, ∀ z < 256, ∀ w < 256,
      gmul11 x ^^^ gmul13 y ^^^ gmul9 z ^^^ gmul14 w < 256 := fun x hx y hy z hz' w hw =>
    byte_xor_lt (byte_xor_lt (byte_xor_lt (gmul11_byte x hx) (gmul13_byte y hy))
      (gmul9_byte z hz')) (gmul14_byte w hw)
  intro b hb
  simp only [invMixColumns, invMixColT, colToList, List.cons_append, List.nil_append,
    List.mem_cons, List.not_mem_nil, or_false] at hb
  rcases hb with rfl|rfl|rfl|rfl|rfl|rfl|rfl|rfl|rfl|rfl|rfl|rfl|rfl|rfl|rfl|rfl
  · exact gb _ h0 _ h1 _ h2 _ h3
  · exact gb2 _ h0 _ h1 _ h2 _ h3
  · exact gb3 _ h0 _ h1 _ h2 _ h3
  · exact gb4 _ h0 _ h1 _ h2 _ h3
  · exact gb _ h4 _ h5 _ h6 _ h7
  · exact gb2 _ h4 _ h5 _ h6 _ h7
  · exact gb3 _ h4 _ h5 _ h6 _ h7
  · exact gb4 _ h4 _ h5 _ h6 _ h7
  · exact gb _ h8 _ h9 _ h10 _ h11
  · exact gb2 _ h8 _ h9 _ h10 _ h11
  · exact gb3 _ h8 _ h9 _ h10 _ h11
  · exact gb4 _ h8 _ h9 _ h10 _ h11
  · exact gb _ h12 _ h13 _ h14 _ h15
  · exact gb2 _ h12 _ h13 _ h14 _ h15
  · exact gb3 _ h12 _ h13 _ h14 _ h15
  · exact gb4 _ h12 _ h13 _ h14 _ h15


/-- The middle and final encryption rounds: each key but the last drives a
full round (SubBytes, ShiftRows, MixColumns, AddRoundKey); the last key
drives the final round, which omits MixColumns. -/
def encRounds : List (List Nat) → List Nat → List Nat
  | [], s => s
  | [k], s => addRoundKey k (shiftRows (subBytes s))
  | k :: k' :: ks, s => encRounds (k' :: ks) (addRoundKey k (mixColumns (shiftRows (subBytes s))))

/-- Inverse of `encRounds`: the same key list, consumed so that the last
key's final round is undone first (standard AES inverse cipher). -/
def invEncRounds : List (List Nat) → List Nat → List Nat
  | [], s => s
  | [k], s => invSubBytes (invShiftRows (addRoundKey k s))
  | k :: k' :: ks, s =>
    invSubBytes (invShiftRows (invMixColumns (addRoundKey k (invEncRounds (k' :: ks) s))))

/-- AES block encryption: initial AddRoundKey with the first round key,
then the rounds driven by the remaining keys. -/
def encryptBlock (rks : List (List Nat)) (s : List Nat) : List Nat :=
  match rks with
  | [] => s
  | k :: ks => encRounds ks (addRoundKey k s)

/-- AES block decryption (standard inverse cipher). -/
def decryptBlock (rks : List (List Nat)) (s : List Nat) : List Nat :=
  match rks with
  | [] => s
  | k :: ks => addRoundKey k (invEncRounds ks s)

/-- AES round constants. -/
def RCON : List Nat := [1, 2, 4, 8, 16, 32, 64, 128, 27, 54]

def rotWord : List Nat → List Nat
  | [a, b, c, d] => [b, c, d, a]
  | w => w

def subWord (w : List Nat) : List Nat := w.map sboxFn

def xorWord (a b : List Nat) : List Nat := List.zipWith (fun x y => x ^^^ y) a b

/-- One step of the AES-128 key schedule, producing word i from the words
computed so far. -/
def nextWord (ws : List (List Nat)) (i : Nat) : List Nat :=
  let wPrev := ws.getD (i - 1) []
  let wBack := ws.getD (i - 4) []
  if i % 4 == 0 then
    xorWord wBack (xorWord (subWord (rotWord wPrev)) [RCON.getD (i / 4 - 1) 0, 0, 0, 0])
  else
    xorWord wBack wPrev

/-- The 44 four-byte words of the AES-128 key schedule. -/
def expandWords (key : List Nat) : List (List Nat) :=
  (List.range' 4 40).foldl (fun ws i => ws ++ [nextWord ws i])
    [key.take 4, (key.drop 4).take 4, (key.drop 8).take 4, (key.drop 12).take 4]

/-- The eleven 16-byte round keys of AES-128. -/
def roundKeys (key : List Nat) : List (List Nat) :=
  (List.range 11).map (fun r => (((expandWords key).drop (4*r)).take 4).flatten)

/-- FIPS-197 appendix C.1 known-answer test: the embedding encrypts the
standard vector to the standard ciphertext. -/
theorem fips197_encrypt_check :
    encryptBlock
      (roundKeys [0x00,0x01,0x02,0x03,0x04,0x05,0x06,0x07,0x08,0x09,0x0a,0x0b,0x0c,0x0d,0x0e,0x0f])
      [0x00,0x11,0x22,0x33,0x44,0x55,0x66,0x77,0x88,0x99,0xaa,0xbb,0xcc,0xdd,0xee,0xff]
      = [0x69,0xc4,0xe0,0xd8,0x6a,0x7b,0x04,0x30,0xd8,0xcd,0xb7,0x80,0x70,0xb4,0xc5,0x5a] := by
  decide

theorem fips197_decrypt_check :
    decryptBlock
      (roundKeys [0x00,0x01,0x02,0x03,0x04,0x05,0x06,0x07,0x08,0x09,0x0a,0x0b,0x0c,0x0d,0x0e,0x0f])
      [0x69,0xc4,0xe0,0xd8,0x6a,0x7b,0x04,0x30,0xd8,0xcd,0xb7,0x80,0x70,0xb4,0xc5,0x5a]
      = [0x00,0x11,0x22,0x33,0x44,0x55,0x66,0x77,0x88,0x99,0xaa,0xbb,0xcc,0xdd,0xee,0xff] := by
  decide

/-- Well-formed 16-byte block. -/
def Blk16 (s : List Nat) : Prop := s.length = 16 ∧ ByteVec s

theorem addRoundKey_blk {k s : List Nat} (hk : Blk16 k) (hs : Blk16 s) :
    Blk16 (addRoundKey k s) := by
  refine ⟨?_, addRoundKey_bytevec hk.2 hs.2⟩
  rw [addRoundKey_length, hk.1, hs.1]
  rfl

theorem subBytes_blk {s : List Nat} (hs : Blk16 s) : Blk16 (subBytes s) :=
  ⟨by rw [subBytes_length, hs.1], subBytes_bytevec s⟩

theorem shiftRows_blk {s : List Nat} (hs : Blk16 s) : Blk16 (shiftRows s) :=
  ⟨by rw [shiftRows_length, hs.1], fun b hb => hs.2 b (mem_shiftRows hb)⟩

theorem mixColumns_blk {s : List Nat} (hs : Blk16 s) : Blk16 (mixColumns s) :=
  ⟨mixColumns_length hs.1, mixColumns_bytevec hs.1 hs.2⟩

theorem invEncRounds_encRounds :
    ∀ (ks : List (List Nat)), (∀ k ∈ ks, Blk16 k) →
    ∀ (s : List Nat), Blk16 s →
    invEncRounds ks (encRounds ks s) = s := by
  intro ks
  induction ks with
  | nil => intro _ s _; rfl
  | cons k ks ih =>
    intro hk s hs
    have hkk : Blk16 k := hk k (by simp)
    cases ks with
    | nil =>
      show invSubBytes (invShiftRows (addRoundKey k (addRoundKey k (shiftRows (subBytes s))))) = s
      rw [addRoundKey_cancel _ _ (by rw [(shiftRows_blk (subBytes_blk hs)).1, hkk.1]),
          invShiftRows_shiftRows, invSub_sub hs.2]
    | cons k' ks' =>
      have hks : ∀ j ∈ (k' :: ks'), Blk16 j := fun j hj => hk j (by simp [hj])
      have hX : Blk16 (addRoundKey k (mixColumns (shiftRows (subBytes s)))) :=
        addRoundKey_blk hkk (mixColumns_blk (shiftRows_blk (subBytes_blk hs)))
      show invSubBytes (invShiftRows (invMixColumns (addRoundKey k
          (invEncRounds (k' :: ks')
            (encRounds (k' :: ks') (addRoundKey k (mixColumns (shiftRows (subBytes s)))))))))
        = s
      rw [ih hks _ hX,
          addRoundKey_cancel _ _
            (by rw [(mixColumns_blk (shiftRows_blk (subBytes_blk hs))).1, hkk.1]),
          invMixColumns_mixColumns (shiftRows_blk (subBytes_blk hs)).1
            (shiftRows_blk (subBytes_blk hs)).2,
          invShiftRows_shiftRows, invSub_sub hs.2]

theorem decryptBlock_encryptBlock {rks : List (List Nat)} {s : List Nat}
    (hk : ∀ k ∈ rks, Blk16 k) (hs : Blk16 s) :
    decryptBlock rks (encryptBlock rks s) = s := by
  cases rks with
  | nil => rfl
  | cons k ks =>
    have hkk : Blk16 k := hk k (by simp)
    show addRoundKey k (invEncRounds ks (encRounds ks (addRoundKey k s))) = s
    rw [invEncRounds_encRounds ks (fun j hj => hk j (by simp [hj])) _
          (addRoundKey_blk hkk hs),
        addRoundKey_cancel _ _ (by rw [hs.1, hkk.1])]

theorem encRounds_blk :
    ∀ (ks : List (List Nat)), (∀ k ∈ ks, Blk16 k) → ks ≠ [] →
    ∀ (s : List Nat), Blk16 s → Blk16 (encRounds ks s) := by
  intro ks
  induction ks with
  | nil => intro _ h; exact absurd rfl h
  | cons k ks ih =>
    intro hk _ s hs
    have hkk : Blk16 k := hk k (by simp)
    cases ks with
    | nil =>
      exact addRoundKey_blk hkk (shiftRows_blk (subBytes_blk hs))
    | cons k' ks' =>
      exact ih (fun j hj => hk j (by simp [hj])) (by simp) _
        (addRoundKey_blk hkk (mixColumns_blk (shiftRows_blk (subBytes_blk hs))))

theorem encryptBlock_blk {rks : List (List Nat)} {s : List Nat}
    (hk : ∀ k ∈ rks, Blk16 k) (hrk : rks ≠ []) (hs : Blk16 s) :
    Blk16 (encryptBlock rks s) := by
  cases rks with
  | nil => exact absurd rfl hrk
  | cons k ks =>
    have hkk : Blk16 k := hk k (by simp)
    show Blk16 (encRounds ks (addRoundKey k s))
    cases ks with
    | nil => exact addRoundKey_blk hkk hs
    | cons k' ks' =>
      exact encRounds_blk _ (fun j hj => hk j (by simp [hj])) (by simp) _
        (addRoundKey_blk hkk hs)


/-- The fixed AES key of the source: the bytes of b'SEGURANCA1234567'. -/
def KEY : List Nat := [83, 69, 71, 85, 82, 65, 78, 67, 65, 49, 50, 51, 52, 53, 54, 55]

/-- The fixed initialization vector of the source: the bytes of b'INICIALIV1234567'. -/
def IV : List Nat := [73, 78, 73, 67, 73, 65, 76, 73, 86, 49, 50, 51, 52, 53, 54, 55]

/-- Bytewise xor of two equally long byte strings. -/
def xorBytes (a b : List Nat) : List Nat := List.zipWith (fun x y => x ^^^ y) a b

/-- CBC encryption over whole 16-byte blocks, with chaining value `prev`.
The fuel argument is the maximum number of bytes to consume; each step
consumes 16, so fuel = length always suffices. -/
def cbcEncryptLoop (rks : List (List Nat)) : Nat → List Nat → List Nat → List Nat
  | _, _, [] => []
  | 0, _, _ => []
  | fuel + 1, prev, b :: pt =>
    encryptBlock rks (xorBytes prev ((b :: pt).take 16)) ++
      cbcEncryptLoop rks fuel (encryptBlock rks (xorBytes prev ((b :: pt).take 16)))
        ((b :: pt).drop 16)

/-- CBC encryption of a whole plaintext. -/
def cbcEncryptBlocks (rks : List (List Nat)) (prev pt : List Nat) : List Nat :=
  cbcEncryptLoop rks pt.length prev pt

/-- CBC decryption over whole 16-byte blocks, with chaining value `prev`. -/
def cbcDecryptLoop (rks : List (List Nat)) : Nat → List Nat → List Nat → List Nat
  | _, _, [] => []
  | 0, _, _ => []
  | fuel + 1, prev, b :: ct =>
    xorBytes prev (decryptBlock rks ((b :: ct).take 16)) ++
      cbcDecryptLoop rks fuel ((b :: ct).take 16) ((b :: ct).drop 16)

/-- CBC decryption of a whole ciphertext. -/
def cbcDecryptBlocks (rks : List (List Nat)) (prev ct : List Nat) : List Nat :=
  cbcDecryptLoop rks ct.length prev ct

theorem xorBytes_cancel : ∀ (a b : List Nat), b.length ≤ a.length →
    xorBytes a (xorBytes a b) = b := by
  intro a
  induction a with
  | nil =>
    intro b hb
    have : b = [] := List.eq_nil_of_length_eq_zero (Nat.le_zero.mp (by simpa using hb))
    simp [this, xorBytes]
  | cons x a ih =>
    intro b hb
    obtain _ | ⟨y, b⟩ := b
    · rfl
    · simp only [xorBytes, List.zipWith_cons_cons]
      have hx : x ^^^ (x ^^^ y) = y := by
        rw [← Nat.xor_assoc, Nat.xor_self, Nat.zero_xor]
      rw [hx]
      have ht := ih b (by simpa using hb)
      simp only [xorBytes] at ht
      rw [ht]

theorem xorBytes_length (a b : List Nat) :
    (xorBytes a b).length = min a.length b.length := List.length_zipWith _ _ _

theorem xorBytes_bytevec {a b : List Nat} (ha : ByteVec a) (hb : ByteVec b) :
    ByteVec (xorBytes a b) := by
  intro c hc
  simp only [xorBytes] at hc
  obtain ⟨i, hlt, hi⟩ := List.mem_iff_getElem.mp hc
  rw [List.getElem_zipWith] at hi
  subst hi
  exact byte_xor_lt (ha _ (List.getElem_mem _)) (hb _ (List.getElem_mem _))

theorem cbc_loop_roundtrip {rks : List (List Nat)} (hk : ∀ k ∈ rks, Blk16 k)
    (hrk : rks ≠ []) :
    ∀ (n : Nat) (pt prev : List Nat) (ef df : Nat),
      pt.length = 16 * n → pt.length ≤ ef → pt.length ≤ df →
      ByteVec pt → Blk16 prev →
      cbcDecryptLoop rks df prev (cbcEncryptLoop rks ef prev pt) = pt := by
  intro n
  induction n with
  | zero =>
    intro pt prev ef df hlen _ _ _ _
    have hpt : pt = [] := List.eq_nil_of_length_eq_zero (by omega)
    subst hpt
    cases ef <;> cases df <;> rfl
  | succ n ih =>
    intro pt prev ef df hlen hef hdf hpt hprev
    obtain ⟨b, pt', rfl⟩ : ∃ b pt', pt = b :: pt' := by
      cases pt with
      | nil => simp at hlen
      | cons b pt' => exact ⟨b, pt', rfl⟩
    obtain ⟨e, rfl⟩ : ∃ e, ef = e + 1 := by
      cases ef
      · simp at hef
      · exact ⟨_, rfl⟩
    obtain ⟨d, rfl⟩ : ∃ d, df = d + 1 := by
      cases df
      · simp at hdf
      · exact ⟨_, rfl⟩
    have htk : Blk16 ((b :: pt').take 16) := by
      constructor
      · rw [List.length_take]
        simp only [List.length_cons] at hlen ⊢
        omega
      · exact fun x hx => hpt x (List.take_subset _ _ hx)
    have hxor : Blk16 (xorBytes prev ((b :: pt').take 16)) := by
      constructor
      · rw [xorBytes_length, hprev.1, htk.1]; rfl
      · exact xorBytes_bytevec hprev.2 htk.2
    have hc : Blk16 (encryptBlock rks (xorBytes prev ((b :: pt').take 16))) :=
      encryptBlock_blk hk hrk hxor
    have hcne : encryptBlock rks (xorBytes prev ((b :: pt').take 16)) ≠ [] := by
      intro h
      have := hc.1
      rw [h] at this
      simp at this
    obtain ⟨c0, ctail, hcc⟩ := List.exists_cons_of_ne_nil hcne
    simp only [cbcEncryptLoop]
    rw [hcc, List.cons_append]
    simp only [cbcDecryptLoop]
    rw [← List.cons_append, ← hcc]
    rw [List.take_left' hc.1, List.drop_left' hc.1]
    rw [decryptBlock_encryptBlock hk hxor]
    rw [xorBytes_cancel _ _ (by rw [hprev.1, htk.1])]
    rw [ih ((b :: pt').drop 16) _ e d
          (by rw [List.length_drop]; simp only [List.length_cons] at hlen ⊢; omega)
          (by rw [List.length_drop]; simp only [List.length_cons] at hef ⊢; omega)
          (by rw [List.length_drop]; simp only [List.length_cons] at hdf ⊢; omega)
          (fun x hx => hpt x (List.drop_subset _ _ hx)) hc]
    exact List.take_append_drop 16 (b :: pt')

theorem cbcEncryptLoop_length {rks : List (List Nat)} (hk : ∀ k ∈ rks, Blk16 k)
    (hrk : rks ≠ []) :
    ∀ (n : Nat) (pt prev : List Nat) (ef : Nat),
      pt.length = 16 * n → pt.length ≤ ef → ByteVec pt → Blk16 prev →
      (cbcEncryptLoop rks ef prev pt).length = pt.length := by
  intro n
  induction n with
  | zero =>
    intro pt prev ef hlen _ _ _
    have hpt : pt = [] := List.eq_nil_of_length_eq_zero (by omega)
    subst hpt
    cases ef <;> rfl
  | succ n ih =>
    intro pt prev ef hlen hef hpt hprev
    obtain ⟨b, pt', rfl⟩ : ∃ b pt', pt = b :: pt' := by
      cases pt with
      | nil => simp at hlen
      | cons b pt' => exact ⟨b, pt', rfl⟩
    obtain ⟨e, rfl⟩ : ∃ e, ef = e + 1 := by
      cases ef
      · simp at hef
      · exact ⟨_, rfl⟩
    have htk : Blk16 ((b :: pt').take 16) := by
      constructor
      · rw [List.length_take]
        simp only [List.length_cons] at hlen ⊢
        omega
      · exact fun x hx => hpt x (List.take_subset _ _ hx)
    have hxor : Blk16 (xorBytes prev ((b :: pt').take 16)) := by
      constructor
      · rw [xorBytes_length, hprev.1, htk.1]; rfl
      · exact xorBytes_bytevec hprev.2 htk.2
    have hc : Blk16 (encryptBlock rks (xorBytes prev ((b :: pt').take 16))) :=
      encryptBlock_blk hk hrk hxor
    simp only [cbcEncryptLoop, List.length_append, hc.1]
    rw [ih ((b :: pt').drop 16) _ e
          (by rw [List.length_drop]; simp only [List.length_cons] at hlen ⊢; omega)
          (by rw [List.length_drop]; simp only [List.length_cons] at hef ⊢; omega)
          (fun x hx => hpt x (List.drop_subset _ _ hx)) hc]
    rw [List.length_drop]
    simp only [List.length_cons] at hlen ⊢
    omega

theorem cbc_roundtrip {rks : List (List Nat)} (hk : ∀ k ∈ rks, Blk16 k) (hrk : rks ≠ [])
    {n : Nat} {pt prev : List Nat} (hlen : pt.length = 16 * n) (hpt : ByteVec pt)
    (hprev : Blk16 prev) :
    cbcDecryptBlocks rks prev (cbcEncryptBlocks rks prev pt) = pt := by
  unfold cbcDecryptBlocks cbcEncryptBlocks
  rw [cbcEncryptLoop_length hk hrk n pt prev pt.length hlen le_rfl hpt hprev]
  exact cbc_loop_roundtrip hk hrk n pt prev pt.length pt.length hlen le_rfl le_rfl hpt hprev

/-- PKCS7 padding (as the publisher-side `Crypto.Util.Padding.pad` does):
append n copies of n, where n = blockSize - len mod blockSize. -/
def pad (data : List Nat) (blockSize : Nat) : List Nat :=
  data ++ List.replicate (blockSize - data.length % blockSize) (blockSize - data.length % blockSize)

/-- PKCS7 unpadding, faithful to `Crypto.Util.Padding.unpad`: reject empty
input, input whose length is not a multiple of the block size, a padding
count outside 1..min(blockSize, length), and inconsistent padding bytes. -/
def unpad (data : List Nat) (blockSize : Nat) : Option (List Nat) :=
  if data.length = 0 then none
  else if data.length % blockSize ≠ 0 then none
  else
    let p := data.getLast?.getD 0
    if p < 1 ∨ min blockSize data.length < p then none
    else if data.drop (data.length - p) ≠ List.replicate p p then none
    else some (data.take (data.length - p))

theorem getLast?_replicate_succ (n : Nat) (a : Nat) :
    (List.replicate (n+1) a).getLast? = some a := by
  induction n with
  | zero => rfl
  | succ m ih =>
    rw [List.replicate_succ, List.getLast?_cons, ih]
    rfl

theorem unpad_pad (d : List Nat) : unpad (pad d 16) 16 = some d := by
  set n := 16 - d.length % 16 with hn
  have hmod : d.length % 16 < 16 := Nat.mod_lt _ (by norm_num)
  have hn1 : 1 ≤ n := by omega
  have hn16 : n ≤ 16 := by omega
  have hlen : (pad d 16).length = d.length + n := by
    simp [pad, List.length_append, List.length_replicate, hn]
  have hlast : (pad d 16).getLast? = some n := by
    unfold pad
    rw [List.getLast?_append]
    obtain ⟨m, hm⟩ : ∃ m, n = m + 1 := ⟨n - 1, by omega⟩
    rw [← hn, hm, getLast?_replicate_succ]
    rfl
  unfold unpad
  rw [if_neg (by omega)]
  rw [if_neg (by
    push_neg
    rw [hlen]
    omega)]
  rw [hlast]
  simp only [Option.getD_some]
  rw [if_neg (by
    push_neg
    constructor
    · omega
    · rw [hlen]; omega)]
  have hdrop : (pad d 16).drop ((pad d 16).length - n) = List.replicate n n := by
    rw [hlen]
    have : d.length + n - n = d.length := by omega
    rw [this]
    unfold pad
    rw [← hn]
    exact List.drop_left _ _
  rw [if_neg (by rw [hdrop]; simp)]
  have htake : (pad d 16).take ((pad d 16).length - n) = d := by
    rw [hlen]
    have : d.length + n - n = d.length := by omega
    rw [this]
    unfold pad
    rw [← hn]
    exact List.take_left _ _
  rw [htake]

theorem pad_length_mod (d : List Nat) : (pad d 16).length % 16 = 0 := by
  have hmod : d.length % 16 < 16 := Nat.mod_lt _ (by norm_num)
  simp only [pad, List.length_append, List.length_replicate]
  omega

theorem pad_bytevec {d : List Nat} (hd : ByteVec d) : ByteVec (pad d 16) := by
  intro b hb
  simp only [pad, List.mem_append] at hb
  rcases hb with hb | hb
  · exact hd b hb
  · have := List.eq_of_mem_replicate hb
    subst this
    have : d.length % 16 < 16 := Nat.mod_lt _ (by norm_num)
    omega


/-- One UTF-8 sequence: decode the leading scalar value from the byte
list, returning it and the remaining bytes. Matches CPython's strict
`bytes.decode('utf-8')` acceptance: rejects stray continuation bytes,
overlong forms, surrogates, values above U+10FFFF, truncated sequences. -/
def utf8DecodeOne : List Nat → Option (Nat × List Nat)
  | [] => none
  | b :: rest =>
    if b < 0x80 then some (b, rest)
    else if b < 0xC0 then none
    else if b < 0xE0 then
      match rest with
      | b1 :: rest1 =>
        if (0x80 ≤ b1 ∧ b1 < 0xC0) ∧ 0x80 ≤ (b - 0xC0) * 64 + (b1 - 0x80) then
          some ((b - 0xC0) * 64 + (b1 - 0x80), rest1)
        else none
      | [] => none
    else if b < 0xF0 then
      match rest with
      | b1 :: b2 :: rest2 =>
        if (0x80 ≤ b1 ∧ b1 < 0xC0) ∧ (0x80 ≤ b2 ∧ b2 < 0xC0) ∧
            0x800 ≤ (b - 0xE0) * 4096 + (b1 - 0x80) * 64 + (b2 - 0x80) ∧
            ¬(0xD800 ≤ (b - 0xE0) * 4096 + (b1 - 0x80) * 64 + (b2 - 0x80) ∧
              (b - 0xE0) * 4096 + (b1 - 0x80) * 64 + (b2 - 0x80) ≤ 0xDFFF) then
          some ((b - 0xE0) * 4096 + (b1 - 0x80) * 64 + (b2 - 0x80), rest2)
        else none
      | _ => none
    else if b < 0xF8 then
      match rest with
      | b1 :: b2 :: b3 :: rest3 =>
        if (0x80 ≤ b1 ∧ b1 < 0xC0) ∧ (0x80 ≤ b2 ∧ b2 < 0xC0) ∧ (0x80 ≤ b3 ∧ b3 < 0xC0) ∧
            0x10000 ≤ (b - 0xF0) * 262144 + (b1 - 0x80) * 4096 + (b2 - 0x80) * 64 + (b3 - 0x80) ∧
            (b - 0xF0) * 262144 + (b1 - 0x80) * 4096 + (b2 - 0x80) * 64 + (b3 - 0x80) < 0x110000 then
          some ((b - 0xF0) * 262144 + (b1 - 0x80) * 4096 + (b2 - 0x80) * 64 + (b3 - 0x80), rest3)
        else none
      | _ => none
    else none

theorem utf8DecodeOne_shrink :
    ∀ (l : List Nat) (c : Nat) (rest : List Nat),
      utf8DecodeOne l = some (c, rest) → rest.length < l.length := by
  intro l c rest h
  cases l with
  | nil => simp [utf8DecodeOne] at h
  | cons b t =>
    simp only [utf8DecodeOne] at h
    repeat' split at h
    all_goals simp_all
    all_goals omega

/-- Decoding loop with fuel; since every UTF-8 sequence consumes at least
one byte, fuel `l.length` always suffices (see `utf8DecodeOne_shrink`). -/
def utf8DecodeLoop : Nat → List Nat → Option (List Nat)
  | _, [] => some []
  | 0, _ :: _ => none
  | fuel + 1, b :: t =>
    match utf8DecodeOne (b :: t) with
    | none => none
    | some cr => (utf8DecodeLoop fuel cr.2).map (cr.1 :: ·)

/-- Strict UTF-8 decoding of a whole byte list to its code points. -/
def utf8Decode? (l : List Nat) : Option (List Nat) := utf8DecodeLoop l.length l

/-- UTF-8 encoding of one code point. -/
def utf8EncodeChar (c : Nat) : List Nat :=
  if c < 0x80 then [c]
  else if c < 0x800 then [0xC0 + c / 64, 0x80 + c % 64]
  else if c < 0x10000 then [0xE0 + c / 4096, 0x80 + c / 64 % 64, 0x80 + c % 64]
  else [0xF0 + c / 262144, 0x80 + c / 4096 % 64, 0x80 + c / 64 % 64, 0x80 + c % 64]

/-- UTF-8 encoding of a list of code points. -/
def utf8Encode (cs : List Nat) : List Nat := (cs.map utf8EncodeChar).flatten

/-- Unicode scalar values: what CPython strict UTF-8 accepts, and exactly
the values backing a Lean `Char`. -/
def ValidScalar (c : Nat) : Prop := c < 0xD800 ∨ (0xE000 ≤ c ∧ c < 0x110000)


theorem utf8Encode_cons (c : Nat) (cs : List Nat) :
    utf8Encode (c :: cs) = utf8EncodeChar c ++ utf8Encode cs := by
  simp [utf8Encode]

theorem utf8DecodeOne_encodeChar (c : Nat) (tail : List Nat) (hv : ValidScalar c) :
    utf8DecodeOne (utf8EncodeChar c ++ tail) = some (c, tail) := by
  have hup : c < 0x110000 := by rcases hv with hs | hs <;> omega
  rcases Nat.lt_or_ge c 0x80 with h1 | h1
  · rw [utf8EncodeChar, if_pos h1]
    simp only [List.cons_append, List.nil_append, utf8DecodeOne, if_pos h1]
  · rcases Nat.lt_or_ge c 0x800 with h2 | h2
    · rw [utf8EncodeChar, if_neg (by omega), if_pos h2]
      simp only [List.cons_append, List.nil_append, utf8DecodeOne]
      rw [if_neg (by omega), if_neg (by omega), if_pos (by omega),
        if_pos (by omega)]
      have ec : (0xC0 + c / 64 - 0xC0) * 64 + (0x80 + c % 64 - 0x80) = c := by omega
      rw [ec]
    · rcases Nat.lt_or_ge c 0x10000 with h3 | h3
      · rw [utf8EncodeChar, if_neg (by omega), if_neg (by omega), if_pos h3]
        simp only [List.cons_append, List.nil_append, utf8DecodeOne]
        have ec : (0xE0 + c / 4096 - 0xE0) * 4096 + (0x80 + c / 64 % 64 - 0x80) * 64 +
            (0x80 + c % 64 - 0x80) = c := by omega
        rw [if_neg (by omega), if_neg (by omega), if_neg (by omega), if_pos (by omega),
          if_pos (by rcases hv with hs | hs <;> omega)]
        rw [ec]
      · rw [utf8EncodeChar, if_neg (by omega), if_neg (by omega), if_neg (by omega)]
        simp only [List.cons_append, List.nil_append, utf8DecodeOne]
        have ec : (0xF0 + c / 262144 - 0xF0) * 262144 + (0x80 + c / 4096 % 64 - 0x80) * 4096 +
            (0x80 + c / 64 % 64 - 0x80) * 64 + (0x80 + c % 64 - 0x80) = c := by omega
        rw [if_neg (by omega), if_neg (by omega), if_neg (by omega), if_neg (by omega),
          if_pos (by omega),
          if_pos (by omega)]
        rw [ec]

theorem utf8EncodeChar_ne_nil (c : Nat) : utf8EncodeChar c ≠ [] := by
  unfold utf8EncodeChar
  split <;> try split
  all_goals try split
  all_goals simp

theorem utf8DecodeLoop_encode :
    ∀ (cs : List Nat) (fuel : Nat), (∀ c ∈ cs, ValidScalar c) →
      (utf8Encode cs).length ≤ fuel → utf8DecodeLoop fuel (utf8Encode cs) = some cs := by
  intro cs
  induction cs with
  | nil =>
    intro fuel _ _
    cases fuel <;> rfl
  | cons c cs ih =>
    intro fuel hv hfuel
    have hvc : ValidScalar c := hv c (by simp)
    have hvcs : ∀ x ∈ cs, ValidScalar x := fun x hx => hv x (by simp [hx])
    obtain ⟨b, bs, hb⟩ : ∃ b bs, utf8EncodeChar c = b :: bs := by
      rcases hbe : utf8EncodeChar c with _ | ⟨b, bs⟩
      · exact absurd hbe (utf8EncodeChar_ne_nil c)
      · exact ⟨b, bs, rfl⟩
    have hlen1 : 1 ≤ (utf8EncodeChar c).length := by rw [hb]; simp
    have hlen : (utf8Encode (c :: cs)).length
        = (utf8EncodeChar c).length + (utf8Encode cs).length := by
      rw [utf8Encode_cons, List.length_append]
    obtain ⟨f, rfl⟩ : ∃ f, fuel = f + 1 := by
      cases fuel
      · exfalso
        rw [utf8Encode_cons] at hfuel
        simp only [List.length_append] at hfuel
        omega
      · exact ⟨_, rfl⟩
    have htail : (utf8Encode cs).length ≤ f := by
      rw [utf8Encode_cons] at hfuel
      simp only [List.length_append] at hfuel
      omega
    have hstep := utf8DecodeOne_encodeChar c (utf8Encode cs) hvc
    rw [hb, List.cons_append] at hstep
    rw [utf8Encode_cons, hb, List.cons_append]
    simp only [utf8DecodeLoop, hstep]
    rw [ih f hvcs htail]
    rfl

theorem utf8_decode_encode {cs : List Nat} (hv : ∀ c ∈ cs, ValidScalar c) :
    utf8Decode? (utf8Encode cs) = some cs :=
  utf8DecodeLoop_encode cs _ hv le_rfl

theorem utf8EncodeChar_bytevec {c : Nat} (hv : ValidScalar c) : ByteVec (utf8EncodeChar c) := by
  intro b hb
  have hup : c < 0x110000 := by rcases hv with hs | hs <;> omega
  unfold utf8EncodeChar at hb
  rcases Nat.lt_or_ge c 0x80 with h1 | h1
  · rw [if_pos h1] at hb
    simp only [List.mem_cons, List.not_mem_nil, or_false] at hb
    omega
  · rw [if_neg (by omega)] at hb
    rcases Nat.lt_or_ge c 0x800 with h2 | h2
    · rw [if_pos h2] at hb
      simp only [List.mem_cons, List.not_mem_nil, or_false] at hb
      rcases hb with rfl | rfl <;> omega
    · rw [if_neg (by omega)] at hb
      rcases Nat.lt_or_ge c 0x10000 with h3 | h3
      · rw [if_pos h3] at hb
        simp only [List.mem_cons, List.not_mem_nil, or_false] at hb
        rcases hb with rfl | rfl | rfl <;> omega
      · rw [if_neg (by omega)] at hb
        simp only [List.mem_cons, List.not_mem_nil, or_false] at hb
        rcases hb with rfl | rfl | rfl | rfl <;> omega

theorem utf8Encode_bytevec {cs : List Nat} (hv : ∀ c ∈ cs, ValidScalar c) :
    ByteVec (utf8Encode cs) := by
  induction cs with
  | nil => intro b hb; simp [utf8Encode] at hb
  | cons c cs ih =>
    intro b hb
    rw [utf8Encode_cons] at hb
    rcases List.mem_append.mp hb with hb | hb
    · exact utf8EncodeChar_bytevec (hv c (by simp)) b hb
    · exact ih (fun x hx => hv x (by simp [hx])) b hb

example : utf8Decode? [0x41, 0x42] = some [0x41, 0x42] := by decide
example : utf8Decode? [0xC3, 0xA9] = some [0xE9] := by decide
example : utf8Decode? [0xE2, 0x82, 0xAC] = some [0x20AC] := by decide
example : utf8Decode? [0xF0, 0x9F, 0x98, 0x80] = some [0x1F600] := by decide
example : utf8Decode? [0xC0, 0x80] = none := by decide
example : utf8Decode? [0xED, 0xA0, 0x80] = none := by decide
example : utf8Decode? [0x80] = none := by decide
example : utf8Decode? [0xC3] = none := by decide
example : utf8Decode? [0xF4, 0x90, 0x80, 0x80] = none := by decide
example : utf8Encode [0x41, 0xE9, 0x20AC, 0x1F600]
    = [0x41, 0xC3, 0xA9, 0xE2, 0x82, 0xAC, 0xF0, 0x9F, 0x98, 0x80] := by decide


/-- Failure cause of the decryption pipeline (`DecryptionError` of the
spec; in the source these are exceptions caught by `on_message`). -/
inductive DecryptionError where
  | notAligned
  | badPadding
  | notUtf8
deriving DecidableEq

/-- Embedding of `decrypt_aes_cbc_pkcs7` (interface.py lines 34-42):
AES-CBC decryption with the fixed `KEY`/`IV` followed by PKCS7 unpadding.
A ciphertext whose length is not a multiple of the AES block size makes
`cipher.decrypt` raise; invalid padding makes `unpad` raise. -/
def decrypt_aes_cbc_pkcs7 (ciphertext : List Nat) : Except DecryptionError (List Nat) :=
  if ciphertext.length % 16 ≠ 0 then .error .notAligned
  else
    match unpad (cbcDecryptBlocks (roundKeys KEY) IV ciphertext) 16 with
    | none => .error .badPadding
    | some d => .ok d

/-- Python's `bytes.decode('utf-8')`: strict UTF-8 decoding to a string. -/
def decodeUtf8String (bs : List Nat) : Option String :=
  (utf8Decode? bs).map (fun cps => String.mk (cps.map Char.ofNat))

/-- The decrypt-then-decode step of `on_message` (lines 69-70, before
`.strip()`): the spec's `PayloadCipher.decrypt(ciphertext) -> string`. -/
def payloadDecrypt (ct : List Nat) : Except DecryptionError String :=
  match decrypt_aes_cbc_pkcs7 ct with
  | .error e => .error e
  | .ok bs =>
    match decodeUtf8String bs with
    | none => .error .notUtf8
    | some s => .ok s

/-- Python `str.isspace` characters (the set `str.strip()` removes). -/
def pyIsSpace (c : Char) : Bool :=
  c.toNat ∈ [9, 10, 11, 12, 13, 28, 29, 30, 31, 32, 133, 160, 5760,
    8192, 8193, 8194, 8195, 8196, 8197, 8198, 8199, 8200, 8201, 8202,
    8232, 8233, 8239, 8287, 12288]

/-- Python `str.strip()`: drop leading and trailing whitespace. -/
def pyStrip (s : String) : String :=
  String.mk (((s.data.dropWhile pyIsSpace).reverse.dropWhile pyIsSpace).reverse)

/-- The `payload` computed by `on_message` (lines 67-74): the decrypted,
decoded, stripped text, or `none` if any step raised. -/
def decryptedPayload (ct : List Nat) : Option String :=
  match payloadDecrypt ct with
  | .error _ => none
  | .ok s => some (pyStrip s)

/-- Modelled from the spec: the publisher-side encryption is not part of
src/ (the sensors publish already-encrypted payloads), so it is modelled
from the spec's words: PKCS7-pad the UTF-8 bytes of the plaintext and
AES-CBC-encrypt them with the same fixed key/IV that `decrypt_aes_cbc_pkcs7`
uses. -/
def encrypt_aes_cbc_pkcs7 (plaintext : String) : List Nat :=
  cbcEncryptBlocks (roundKeys KEY) IV (pad (utf8Encode (plaintext.data.map Char.toNat)) 16)

instance byteVecDecidable (l : List Nat) : Decidable (ByteVec l) :=
  List.decidableBAll _ l

instance blk16Decidable (s : List Nat) : Decidable (Blk16 s) :=
  inferInstanceAs (Decidable (_ ∧ _))

theorem roundKeys_KEY_wf : ∀ k ∈ roundKeys KEY, Blk16 k := by decide

theorem roundKeys_KEY_ne_nil : roundKeys KEY ≠ [] := by decide

theorem IV_wf : Blk16 IV := by decide

theorem char_valid_scalar (c : Char) : ValidScalar c.toNat := by
  have h := c.valid
  rcases h with h | ⟨h1, h2⟩
  · exact Or.inl h
  · exact Or.inr ⟨h1, h2⟩

-- End-to-end sanity checks against ciphertexts produced by a reference
-- implementation of the sender (AES-CBC, PKCS7, fixed KEY/IV).
example : decryptedPayload
    [226, 36, 20, 128, 108, 44, 130, 195, 229, 207, 32, 177, 134, 211, 233, 120]
    = some "36.5" := by decide
example : decryptedPayload
    [21, 85, 102, 110, 119, 212, 224, 169, 67, 189, 220, 4, 43, 167, 194, 123]
    = some "ATIVO" := by decide
example : decryptedPayload [0] = none := by decide
example : decryptedPayload [] = none := by decide

/-- C4: the decrypt operation fails with a DecryptionError exactly when
the ciphertext length is not a multiple of the cipher block size, or when
PKCS7 unpadding finds an invalid padding byte sequence, or when the
decrypted bytes are not valid UTF-8 text; for every other input it
returns a plaintext string. -/
theorem C4_decrypt_error_taxonomy (ct : List Nat) :
    ((∃ e, payloadDecrypt ct = .error e) ↔
      (¬ (16 ∣ ct.length)
        ∨ unpad (cbcDecryptBlocks (roundKeys KEY) IV ct) 16 = none
        ∨ (∃ pt, unpad (cbcDecryptBlocks (roundKeys KEY) IV ct) 16 = some pt
            ∧ utf8Decode? pt = none)))
    ∧ ((∃ s, payloadDecrypt ct = .ok s) ↔
      ¬ (¬ (16 ∣ ct.length)
        ∨ unpad (cbcDecryptBlocks (roundKeys KEY) IV ct) 16 = none
        ∨ (∃ pt, unpad (cbcDecryptBlocks (roundKeys KEY) IV ct) 16 = some pt
            ∧ utf8Decode? pt = none))) := by
  have hdvd : (16 ∣ ct.length) ↔ ct.length % 16 = 0 := Nat.dvd_iff_mod_eq_zero
  by_cases hal : ct.length % 16 = 0
  · rcases hu : unpad (cbcDecryptBlocks (roundKeys KEY) IV ct) 16 with _ | pt
    · have hval : payloadDecrypt ct = .error .badPadding := by
        simp [payloadDecrypt, decrypt_aes_cbc_pkcs7, hal, hu]
      rw [hval]
      constructor
      · simp [hu]
      · simp [hu]
    · rcases hd : utf8Decode? pt with _ | cps
      · have hval : payloadDecrypt ct = .error .notUtf8 := by
          simp [payloadDecrypt, decrypt_aes_cbc_pkcs7, decodeUtf8String, hal, hu, hd]
        rw [hval]
        constructor
        · constructor
          · intro _
            exact Or.inr (Or.inr ⟨pt, rfl, hd⟩)
          · intro _
            exact ⟨_, rfl⟩
        · constructor
          · intro ⟨s, hs⟩
            exact absurd hs (by simp)
          · intro hno
            exact absurd (Or.inr (Or.inr ⟨pt, rfl, hd⟩)) hno
      · have hval : payloadDecrypt ct = .ok (String.mk (cps.map Char.ofNat)) := by
          simp [payloadDecrypt, decrypt_aes_cbc_pkcs7, decodeUtf8String, hal, hu, hd]
        have hfalse : ¬ (¬ (16 ∣ ct.length)
            ∨ (some pt : Option (List Nat)) = none
            ∨ (∃ pt', (some pt : Option (List Nat)) = some pt'
                ∧ utf8Decode? pt' = none)) := by
          intro hcase
          rcases hcase with hcase | hcase | ⟨pt', hpt', hdec⟩
          · exact absurd (hdvd.mpr hal) hcase
          · exact absurd hcase (by simp)
          · have hpp : pt = pt' := by injection hpt'
            rw [← hpp, hd] at hdec
            exact absurd hdec (by simp)
        rw [hval]
        constructor
        · constructor
          · intro ⟨e, he⟩
            exact absurd he (by simp)
          · intro hcase
            exact absurd hcase hfalse
        · constructor
          · intro _
            exact hfalse
          · intro _
            exact ⟨_, rfl⟩
  · have hval : payloadDecrypt ct = .error .notAligned := by
      simp [payloadDecrypt, decrypt_aes_cbc_pkcs7, hal]
    rw [hval]
    have hmis : ¬ (16 ∣ ct.length) := fun hdd => hal (hdvd.mp hdd)
    constructor
    · constructor
      · intro _
        exact Or.inl hmis
      · intro _
        exact ⟨_, rfl⟩
    · constructor
      · intro ⟨s, hs⟩
        exact absurd hs (by simp)
      · intro hno
        exact absurd (Or.inl hmis) hno

/-- C5: for every plaintext string P, encrypting P (PKCS7-padded, AES-CBC
with the fixed key and fixed IV, as the publishing sensors do per the
spec) and then applying the program's decrypt pipeline yields P again. -/
theorem C5_decrypt_encrypt_roundtrip (P : String) :
    payloadDecrypt (encrypt_aes_cbc_pkcs7 P) = .ok P := by
  have hvs : ∀ c ∈ P.data.map Char.toNat, ValidScalar c := by
    intro c hc
    obtain ⟨ch, _, rfl⟩ := List.mem_map.mp hc
    exact char_valid_scalar ch
  have hbytes : ByteVec (utf8Encode (P.data.map Char.toNat)) := utf8Encode_bytevec hvs
  have hpadb : ByteVec (pad (utf8Encode (P.data.map Char.toNat)) 16) := pad_bytevec hbytes
  obtain ⟨n, hn⟩ : ∃ n, (pad (utf8Encode (P.data.map Char.toNat)) 16).length = 16 * n := by
    have hm := pad_length_mod (utf8Encode (P.data.map Char.toNat))
    exact (Nat.dvd_iff_mod_eq_zero).mpr hm
  have hct_len : (encrypt_aes_cbc_pkcs7 P).length
      = (pad (utf8Encode (P.data.map Char.toNat)) 16).length := by
    unfold encrypt_aes_cbc_pkcs7 cbcEncryptBlocks
    exact cbcEncryptLoop_length roundKeys_KEY_wf roundKeys_KEY_ne_nil n _ IV _ hn le_rfl
      hpadb IV_wf
  have hdec_blocks : cbcDecryptBlocks (roundKeys KEY) IV (encrypt_aes_cbc_pkcs7 P)
      = pad (utf8Encode (P.data.map Char.toNat)) 16 := by
    unfold encrypt_aes_cbc_pkcs7
    exact cbc_roundtrip roundKeys_KEY_wf roundKeys_KEY_ne_nil hn hpadb IV_wf
  have halign : (encrypt_aes_cbc_pkcs7 P).length % 16 = 0 := by
    rw [hct_len]
    exact pad_length_mod _
  have h1 : decrypt_aes_cbc_pkcs7 (encrypt_aes_cbc_pkcs7 P)
      = .ok (utf8Encode (P.data.map Char.toNat)) := by
    unfold decrypt_aes_cbc_pkcs7
    rw [if_neg (by simp [halign]), hdec_blocks, unpad_pad]
  have h2 : decodeUtf8String (utf8Encode (P.data.map Char.toNat)) = some P := by
    unfold decodeUtf8String
    rw [utf8_decode_encode hvs]
    simp only [Option.map_some']
    congr 1
    rw [List.map_map]
    have hid : (Char.ofNat ∘ Char.toNat) = id := funext Char.ofNat_toNat
    rw [hid, List.map_id]
  simp only [payloadDecrypt, h1, h2]


/-! ## The panel state: Python dicts as insertion-ordered association lists -/

/-- Python `d.get(k)` / `d[k]` on a string-keyed dict. -/
def dictGet? {α : Type _} (d : List (String × α)) (k : String) : Option α :=
  (d.find? (fun p => p.1 == k)).map (·.2)

/-- Lookup with a default. -/
def dictGetD {α : Type _} (d : List (String × α)) (k : String) (v0 : α) : α :=
  (dictGet? d k).getD v0

/-- Python `d[k] = v`: overwrite in place if the key is present (keys are
unique in every dict this development builds), append otherwise —
insertion order preserved, as Python dicts do. -/
def dictSet {α : Type _} : List (String × α) → String → α → List (String × α)
  | [], k, v => [(k, v)]
  | p :: d, k, v => if p.1 == k then (k, v) :: d else p :: dictSet d k v


theorem find?_cons_pos {α : Type _} (f : α → Bool) (a : α) (l : List α) (h : f a = true) :
    List.find? f (a :: l) = some a := List.find?_cons_of_pos l h

theorem find?_cons_neg {α : Type _} (f : α → Bool) (a : α) (l : List α) (h : ¬ f a = true) :
    List.find? f (a :: l) = List.find? f l := List.find?_cons_of_neg l h

theorem dictGet?_set_self {α : Type _} (d : List (String × α)) (k : String) (v : α) :
    dictGet? (dictSet d k v) k = some v := by
  induction d with
  | nil => simp [dictGet?, dictSet]
  | cons p d ih =>
    by_cases hp : p.1 == k
    · simp [dictGet?, dictSet, hp]
    · simp only [dictSet, hp, if_false, Bool.false_eq_true]
      rw [dictGet?, find?_cons_neg (fun q => q.1 == k) p _ hp]
      exact ih

theorem dictGet?_set_other {α : Type _} (d : List (String × α)) (k k' : String) (v : α)
    (hne : k' ≠ k) :
    dictGet? (dictSet d k v) k' = dictGet? d k' := by
  have hkk' : ¬ (k == k') = true := by simpa using Ne.symm hne
  induction d with
  | nil => simp [dictGet?, dictSet, hkk']
  | cons p d ih =>
    by_cases hp : p.1 == k
    · have hpk : p.1 = k := by simpa using hp
      have hp' : ¬ (p.1 == k') = true := by
        rw [hpk]
        exact hkk'
      simp only [dictSet, hp, if_true]
      rw [dictGet?, dictGet?,
        find?_cons_neg (fun q => q.1 == k') (k, v) _ (by simpa using hkk'),
        find?_cons_neg (fun q => q.1 == k') p _ hp']
    · simp only [dictSet, hp, if_false, Bool.false_eq_true]
      by_cases hp' : p.1 == k'
      · rw [dictGet?, dictGet?, find?_cons_pos (fun q => q.1 == k') p _ hp',
          find?_cons_pos (fun q => q.1 == k') p _ hp']
      · rw [dictGet?, dictGet?, find?_cons_neg (fun q => q.1 == k') p _ hp',
          find?_cons_neg (fun q => q.1 == k') p _ hp']
        exact ih

theorem dictSet_keys_of_present {α : Type _} (d : List (String × α)) (k : String) (v : α)
    (h : (dictGet? d k).isSome) :
    (dictSet d k v).map Prod.fst = d.map Prod.fst := by
  induction d with
  | nil => simp [dictGet?] at h
  | cons p d ih =>
    by_cases hp : p.1 == k
    · have hpk : p.1 = k := by simpa using hp
      simp [dictSet, hp, hpk]
    · simp only [dictSet, hp, if_false, Bool.false_eq_true, List.map_cons]
      rw [dictGet?, find?_cons_neg (fun q => q.1 == k) p _ hp] at h
      rw [ih h]

theorem dictGet?_isSome_of_mem_keys {α : Type _} (d : List (String × α)) (k : String)
    (h : k ∈ d.map Prod.fst) : (dictGet? d k).isSome := by
  induction d with
  | nil => simp at h
  | cons p d ih =>
    by_cases hp : p.1 == k
    · rw [dictGet?, find?_cons_pos (fun q => q.1 == k) p _ hp]
      rfl
    · rw [dictGet?, find?_cons_neg (fun q => q.1 == k) p _ hp]
      simp only [List.map_cons, List.mem_cons] at h
      rcases h with h | h
      · exact absurd (by simp [h] : (p.1 == k) = true) hp
      · exact ih h

theorem mem_keys_of_dictGet?_isSome {α : Type _} (d : List (String × α)) (k : String)
    (h : (dictGet? d k).isSome) : k ∈ d.map Prod.fst := by
  induction d with
  | nil => simp [dictGet?] at h
  | cons p d ih =>
    by_cases hp : p.1 == k
    · have hpk : p.1 = k := by simpa using hp
      simp [hpk]
    · rw [dictGet?, find?_cons_neg (fun q => q.1 == k) p _ hp] at h
      simp only [List.map_cons, List.mem_cons]
      exact Or.inr (ih h)

/-- The topic registry `TOPICS` of interface.py (lines 20-26). -/
def TOPICS : List (String × String) :=
  [("hospital/cama/temperatura", "temperatura"),
   ("hospital/cama/umidade", "umidade"),
   ("hospital/cama/angulo", "angulo"),
   ("hospital/cama01/alerta", "alerta")]

/-- The initial panel dictionary `dados_cama` (lines 43-48): every metric
starts at the sentinel literal. -/
def dados_cama : List (String × String) :=
  [("temperatura", "Aguardando..."),
   ("umidade", "Aguardando..."),
   ("angulo", "Aguardando..."),
   ("alerta", "Aguardando...")]

/-- `timeout_segundos = 5` (line 52), the staleness threshold. -/
def timeout_segundos : ℚ := 5

/-- `ultimos_tempos = {k: 0 for k in dados_cama}` (line 53). -/
def ultimos_tempos : List (String × ℚ) := dados_cama.map (fun p => (p.1, 0))

/-- The mutable module-level state: the two dictionaries. -/
structure SysState where
  dados : List (String × String)
  tempos : List (String × ℚ)
deriving DecidableEq

/-- The state at process start. -/
def initState : SysState := ⟨dados_cama, ultimos_tempos⟩

/-- An inbound MQTT message: wire topic and raw (encrypted) payload. -/
structure MqttMsg where
  topic : String
  payload : List Nat

/-- One dictionary write, as executed by a single Python statement:
line 78 (`dados_cama[chave] = payload`) or line 79
(`ultimos_tempos[chave] = time.time()`). Under the GIL each statement is
atomic, but the pair of them is not. -/
inductive PainelWrite where
  | writeValue (chave : String) (v : String)
  | writeTime (chave : String) (t : ℚ)

/-- Execute one write against the state. -/
def applyWrite : PainelWrite → SysState → SysState
  | .writeValue chave v, st => { st with dados := dictSet st.dados chave v }
  | .writeTime chave t, st => { st with tempos := dictSet st.tempos chave t }

/-- The successful-update path of `on_message` (lines 78-79): value write
then timestamp write. -/
def updateMetric (chave p : String) (now : ℚ) (st : SysState) : SysState :=
  applyWrite (.writeTime chave now) (applyWrite (.writeValue chave p) st)

/-- Embedding of the MQTT callback `on_message` (lines 65-84), processing
one message at wall-clock time `now`: decrypt/decode/strip the payload
(`None` on any exception), resolve the topic, and update both entries on
success; otherwise leave the state untouched (the remaining branches only
print diagnostics). The Python guard is `if chave and payload is not
None`, where a falsy `chave` is `None` (unknown topic) or the empty
string. -/
def on_message (now : ℚ) (msg : MqttMsg) (st : SysState) : SysState :=
  match dictGet? TOPICS msg.topic, decryptedPayload msg.payload with
  | some chave, some p =>
    if chave = "" then st else updateMetric chave p now st
  | _, _ => st

/-- Embedding of the read path `api_dados` (lines 202-212), generalized
over the configured staleness threshold (`timeout_segundos` in the
source) and the current time `agora` (`time.time()` in the source): for
each entry, report the sentinel if the metric was updated before
(timestamp positive) and is older than the threshold, else the stored
value. -/
def api_dados_at (timeout agora : ℚ) (st : SysState) : List (String × String) :=
  st.dados.map (fun p =>
    (p.1, if dictGetD st.tempos p.1 0 > 0 ∧ agora - dictGetD st.tempos p.1 0 > timeout
          then "Aguardando..."
          else p.2))

/-- `api_dados` with the source's configured threshold. -/
def api_dados (agora : ℚ) (st : SysState) : List (String × String) :=
  api_dados_at timeout_segundos agora st

/-- Process a sequence of timestamped messages in arrival order. -/
def processAll (msgs : List (ℚ × MqttMsg)) (st : SysState) : SysState :=
  msgs.foldl (fun s m => on_message m.1 m.2 s) st

theorem dictGet?_map_keyed {α β : Type _} (d : List (String × α)) (f : String → α → β)
    (k : String) :
    dictGet? (d.map (fun p => (p.1, f p.1 p.2))) k
      = (d.find? (fun p => p.1 == k)).map (fun p => f p.1 p.2) := by
  induction d with
  | nil => simp [dictGet?]
  | cons p d ih =>
    by_cases hp : p.1 == k
    · rw [dictGet?, List.map_cons,
        find?_cons_pos (fun q => q.1 == k) (p.1, f p.1 p.2) _ (by simpa using hp),
        find?_cons_pos (fun q => q.1 == k) p _ hp]
      rfl
    · rw [dictGet?, List.map_cons,
        find?_cons_neg (fun q => q.1 == k) (p.1, f p.1 p.2) _ (by simpa using hp),
        find?_cons_neg (fun q => q.1 == k) p _ hp]
      exact ih

/-- What a snapshot reports for one metric, in terms of the two stored
entries for that metric. -/
theorem api_dados_at_lookup (timeout agora : ℚ) (st : SysState) (k : String) :
    dictGet? (api_dados_at timeout agora st) k
      = (dictGet? st.dados k).map (fun v =>
          if dictGetD st.tempos k 0 > 0 ∧ agora - dictGetD st.tempos k 0 > timeout
          then "Aguardando..."
          else v) := by
  unfold api_dados_at
  rw [dictGet?_map_keyed st.dados
    (fun key v => if dictGetD st.tempos key 0 > 0 ∧ agora - dictGetD st.tempos key 0 > timeout
      then "Aguardando..." else v) k]
  unfold dictGet?
  rcases hf : st.dados.find? (fun p => p.1 == k) with _ | p
  · rw [hf]
    rfl
  · rw [hf]
    have hpk : p.1 = k := by simpa using List.find?_some hf
    simp only [Option.map_some']
    rw [hpk]


/-! ## Helper lemmas about the message callback and the state invariants -/

theorem updateMetric_dados_self (chave p : String) (now : ℚ) (st : SysState) :
    dictGet? (updateMetric chave p now st).dados chave = some p := by
  unfold updateMetric applyWrite
  exact dictGet?_set_self st.dados chave p

theorem updateMetric_tempos_self (chave p : String) (now : ℚ) (st : SysState) :
    dictGet? (updateMetric chave p now st).tempos chave = some now := by
  unfold updateMetric applyWrite
  exact dictGet?_set_self st.tempos chave now

theorem updateMetric_dados_other (chave p : String) (now : ℚ) (st : SysState)
    (ch : String) (hne : ch ≠ chave) :
    dictGet? (updateMetric chave p now st).dados ch = dictGet? st.dados ch := by
  unfold updateMetric applyWrite
  exact dictGet?_set_other st.dados chave ch p hne

theorem updateMetric_tempos_other (chave p : String) (now : ℚ) (st : SysState)
    (ch : String) (hne : ch ≠ chave) :
    dictGet? (updateMetric chave p now st).tempos ch = dictGet? st.tempos ch := by
  unfold updateMetric applyWrite
  exact dictGet?_set_other st.tempos chave ch now hne

/-- `on_message` either leaves the state untouched or performs the
two-write update for the resolved metric. -/
theorem on_message_cases (now : ℚ) (msg : MqttMsg) (st : SysState) :
    on_message now msg st = st
    ∨ ∃ chave p, dictGet? TOPICS msg.topic = some chave
        ∧ decryptedPayload msg.payload = some p ∧ chave ≠ ""
        ∧ on_message now msg st = updateMetric chave p now st := by
  unfold on_message
  rcases ht : dictGet? TOPICS msg.topic with _ | chave
  · exact Or.inl rfl
  · rcases hp : decryptedPayload msg.payload with _ | p
    · exact Or.inl rfl
    · by_cases hc : chave = ""
      · refine Or.inl ?_
        show (if chave = "" then st else updateMetric chave p now st) = st
        rw [if_pos hc]
      · refine Or.inr ⟨chave, p, rfl, rfl, hc, ?_⟩
        show (if chave = "" then st else updateMetric chave p now st)
          = updateMetric chave p now st
        rw [if_neg hc]

theorem processAll_append (xs ys : List (ℚ × MqttMsg)) (st : SysState) :
    processAll (xs ++ ys) st = processAll ys (processAll xs st) :=
  List.foldl_append _ _ _ _

theorem processAll_cons (m : ℚ × MqttMsg) (ms : List (ℚ × MqttMsg)) (st : SysState) :
    processAll (m :: ms) st = processAll ms (on_message m.1 m.2 st) := rfl

/-- The zero-timestamp invariant: a metric whose stored timestamp is
still 0 still stores the sentinel. -/
def ZeroTsInv (st : SysState) : Prop :=
  ∀ ch, dictGet? st.tempos ch = some 0 → dictGet? st.dados ch = some "Aguardando..."

theorem zeroTsInv_init : ZeroTsInv initState := by
  intro ch h
  unfold initState ultimos_tempos at h
  rw [dictGet?_map_keyed dados_cama (fun _ _ => (0:ℚ)) ch] at h
  rcases hf : dados_cama.find? (fun p => p.1 == ch) with _ | p
  · rw [hf] at h
    simp at h
  · have hm : p ∈ dados_cama := List.mem_of_find?_eq_some hf
    have hv : p.2 = "Aguardando..." := by
      simp only [dados_cama, List.mem_cons, List.not_mem_nil, or_false] at hm
      rcases hm with rfl | rfl | rfl | rfl <;> rfl
    show (dados_cama.find? (fun p => p.1 == ch)).map (·.2) = some "Aguardando..."
    rw [hf]
    simp [hv]

theorem zeroTsInv_step (now : ℚ) (hpos : 0 < now) (msg : MqttMsg) (st : SysState)
    (hinv : ZeroTsInv st) : ZeroTsInv (on_message now msg st) := by
  rcases on_message_cases now msg st with h | ⟨chave, p, _, _, _, h⟩
  · rw [h]
    exact hinv
  · rw [h]
    intro ch hch
    by_cases hne : ch = chave
    · subst hne
      rw [updateMetric_tempos_self] at hch
      have hn0 : now = 0 := by injection hch
      rw [hn0] at hpos
      exact absurd hpos (lt_irrefl 0)
    · rw [updateMetric_tempos_other _ _ _ _ _ hne] at hch
      rw [updateMetric_dados_other _ _ _ _ _ hne]
      exact hinv ch hch

theorem zeroTsInv_processAll :
    ∀ (msgs : List (ℚ × MqttMsg)) (st : SysState), (∀ m ∈ msgs, 0 < m.1) →
      ZeroTsInv st → ZeroTsInv (processAll msgs st) := by
  intro msgs
  induction msgs with
  | nil => intro st _ h; exact h
  | cons m ms ih =>
    intro st hpos hinv
    rw [processAll_cons]
    exact ih _ (fun x hx => hpos x (by simp [hx]))
      (zeroTsInv_step m.1 (hpos m (by simp)) m.2 st hinv)

theorem initState_tempos_getD (ch : String) : dictGetD initState.tempos ch 0 = 0 := by
  unfold dictGetD initState ultimos_tempos
  rw [dictGet?_map_keyed dados_cama (fun _ _ => (0:ℚ)) ch]
  rcases hf : dados_cama.find? (fun p => p.1 == ch) with _ | p <;> rw [hf] <;> rfl

theorem on_message_tempos_getD_cases (now : ℚ) (msg : MqttMsg) (st : SysState) (ch : String) :
    dictGetD (on_message now msg st).tempos ch 0 = dictGetD st.tempos ch 0
    ∨ dictGetD (on_message now msg st).tempos ch 0 = now := by
  rcases on_message_cases now msg st with h | ⟨chave, p, _, _, _, h⟩
  · rw [h]
    exact Or.inl rfl
  · rw [h]
    by_cases hne : ch = chave
    · subst hne
      unfold dictGetD
      rw [updateMetric_tempos_self]
      exact Or.inr rfl
    · unfold dictGetD
      rw [updateMetric_tempos_other _ _ _ _ _ hne]
      exact Or.inl rfl

theorem processAll_tempos_mono :
    ∀ (msgs : List (ℚ × MqttMsg)) (st : SysState) (ch : String),
      (∀ m ∈ msgs, dictGetD st.tempos ch 0 ≤ m.1) →
      msgs.Pairwise (fun a b => a.1 ≤ b.1) →
      dictGetD st.tempos ch 0 ≤ dictGetD (processAll msgs st).tempos ch 0 := by
  intro msgs
  induction msgs with
  | nil => intro st ch _ _; exact le_refl _
  | cons m ms ih =>
    intro st ch hbound hsorted
    rw [processAll_cons]
    have hsorted' : ms.Pairwise (fun a b => a.1 ≤ b.1) := (List.pairwise_cons.mp hsorted).2
    have hhead : ∀ b ∈ ms, m.1 ≤ b.1 := (List.pairwise_cons.mp hsorted).1
    rcases on_message_tempos_getD_cases m.1 m.2 st ch with hc | hc
    · have := ih (on_message m.1 m.2 st) ch
        (fun x hx => by rw [hc]; exact hbound x (by simp [hx])) hsorted'
      rw [hc] at this
      exact this
    · have hm1 : dictGetD st.tempos ch 0 ≤ m.1 := hbound m (by simp)
      have := ih (on_message m.1 m.2 st) ch
        (fun x hx => by rw [hc]; exact hhead x hx) hsorted'
      rw [hc] at this
      exact le_trans hm1 this

theorem processAll_tempos_origin :
    ∀ (msgs : List (ℚ × MqttMsg)) (st : SysState) (ch : String),
      dictGetD (processAll msgs st).tempos ch 0 = dictGetD st.tempos ch 0
      ∨ ∃ m ∈ msgs, dictGetD (processAll msgs st).tempos ch 0 = m.1 := by
  intro msgs
  induction msgs with
  | nil => intro st ch; exact Or.inl rfl
  | cons m ms ih =>
    intro st ch
    rw [processAll_cons]
    rcases ih (on_message m.1 m.2 st) ch with h | ⟨m', hm', h⟩
    · rw [h]
      rcases on_message_tempos_getD_cases m.1 m.2 st ch with hc | hc
      · exact Or.inl hc
      · exact Or.inr ⟨m, by simp, hc⟩
    · exact Or.inr ⟨m', by simp [hm'], h⟩

/-- Both dictionaries always keep exactly the four construction-time keys,
in order. -/
def KeysInv (st : SysState) : Prop :=
  st.dados.map Prod.fst = dados_cama.map Prod.fst
  ∧ st.tempos.map Prod.fst = dados_cama.map Prod.fst

theorem keysInv_init : KeysInv initState := by
  constructor
  · rfl
  · unfold initState ultimos_tempos
    rw [List.map_map]
    rfl

theorem TOPICS_value_mem_keys (t chave : String) (h : dictGet? TOPICS t = some chave) :
    chave ∈ dados_cama.map Prod.fst := by
  unfold dictGet? at h
  rcases hf : TOPICS.find? (fun p => p.1 == t) with _ | p
  · rw [hf] at h
    simp at h
  · rw [hf] at h
    have hm : p ∈ TOPICS := List.mem_of_find?_eq_some hf
    have hp2 : p.2 = chave := by simpa using h
    simp only [TOPICS, List.mem_cons, List.not_mem_nil, or_false] at hm
    rcases hm with rfl | rfl | rfl | rfl <;> rw [← hp2] <;> decide

theorem keysInv_step (now : ℚ) (msg : MqttMsg) (st : SysState) (hinv : KeysInv st) :
    KeysInv (on_message now msg st) := by
  rcases on_message_cases now msg st with h | ⟨chave, p, htop, _, _, h⟩
  · rw [h]
    exact hinv
  · rw [h]
    have hmem : chave ∈ dados_cama.map Prod.fst := TOPICS_value_mem_keys _ _ htop
    constructor
    · show (dictSet st.dados chave p).map Prod.fst = _
      rw [dictSet_keys_of_present st.dados chave p
        (dictGet?_isSome_of_mem_keys st.dados chave (by rw [hinv.1]; exact hmem))]
      exact hinv.1
    · show (dictSet st.tempos chave now).map Prod.fst = _
      rw [dictSet_keys_of_present st.tempos chave now
        (dictGet?_isSome_of_mem_keys st.tempos chave (by rw [hinv.2]; exact hmem))]
      exact hinv.2

theorem keysInv_processAll :
    ∀ (msgs : List (ℚ × MqttMsg)) (st : SysState), KeysInv st →
      KeysInv (processAll msgs st) := by
  intro msgs
  induction msgs with
  | nil => intro st h; exact h
  | cons m ms ih =>
    intro st hinv
    rw [processAll_cons]
    exact ih _ (keysInv_step m.1 m.2 st hinv)

theorem api_dados_at_keys (timeout agora : ℚ) (st : SysState) :
    (api_dados_at timeout agora st).map Prod.fst = st.dados.map Prod.fst := by
  unfold api_dados_at
  rw [List.map_map]
  rfl


/-! ## The claims -/

/-- C1: for every metric updated at time T with value V, a snapshot taken
at time T+Δ with staleness threshold S returns V when Δ ≤ S and returns
the sentinel when Δ > S, for all Δ, S ≥ 0; at the boundary Δ = S the
stored value V is returned, not the sentinel. The update time T is
positive, as every wall-clock `time.time()` value is; a zero timestamp is
the code's reserved never-updated marker. -/
theorem C1_snapshot_freshness (st : SysState) (chave V : String) (T Δ S : ℚ)
    (hT : 0 < T) (hΔ : 0 ≤ Δ) (hS : 0 ≤ S) :
    dictGet? (api_dados_at S (T + Δ) (updateMetric chave V T st)) chave
      = some (if Δ ≤ S then V else "Aguardando...") := by
  rw [api_dados_at_lookup, updateMetric_dados_self]
  unfold dictGetD
  rw [updateMetric_tempos_self]
  simp only [Option.map_some', Option.getD_some]
  by_cases hcase : Δ ≤ S
  · rw [if_neg (fun h => absurd h.2 (by linarith : ¬ T + Δ - T > S)), if_pos hcase]
  · rw [if_pos ⟨hT, by linarith⟩, if_neg hcase]

theorem C1_witness :
    ((0:ℚ) < 10 ∧ (0:ℚ) ≤ 3 ∧ (0:ℚ) ≤ 5
      ∧ dictGet? (api_dados_at 5 (10 + 3) (updateMetric "temperatura" "36.5" 10 initState))
          "temperatura" = some (if (3:ℚ) ≤ 5 then "36.5" else "Aguardando..."))
    ∧ ((0:ℚ) < 10 ∧ (0:ℚ) ≤ 9 ∧ (0:ℚ) ≤ 5
      ∧ dictGet? (api_dados_at 5 (10 + 9) (updateMetric "temperatura" "36.5" 10 initState))
          "temperatura" = some (if (9:ℚ) ≤ 5 then "36.5" else "Aguardando...")) :=
  ⟨⟨by decide, by decide, by decide,
      C1_snapshot_freshness initState "temperatura" "36.5" 10 3 5
        (by decide) (by decide) (by decide)⟩,
    ⟨by decide, by decide, by decide,
      C1_snapshot_freshness initState "temperatura" "36.5" 10 9 5
        (by decide) (by decide) (by decide)⟩⟩

/-- C2: for every metric that has never been updated (timestamp still at
its initial zero value), the snapshot operation returns the sentinel
string, for every staleness threshold and every current time, no matter
how much process time has elapsed. Message processing times are positive
wall-clock values. -/
theorem C2_never_updated (msgs : List (ℚ × MqttMsg)) (chave : String) (S agora : ℚ)
    (hpos : ∀ m ∈ msgs, 0 < m.1)
    (h0 : dictGet? (processAll msgs initState).tempos chave = some 0) :
    dictGet? (api_dados_at S agora (processAll msgs initState)) chave
      = some "Aguardando..." := by
  have hv := zeroTsInv_processAll msgs initState hpos zeroTsInv_init chave h0
  rw [api_dados_at_lookup, hv]
  unfold dictGetD
  rw [h0]
  simp only [Option.map_some', Option.getD_some]
  rw [if_neg (fun h => absurd h.1 (lt_irrefl 0))]

theorem C2_witness :
    (∀ m ∈ ([] : List (ℚ × MqttMsg)), 0 < m.1)
    ∧ dictGet? (processAll [] initState).tempos "temperatura" = some 0
    ∧ dictGet? (api_dados_at 1000000 999999 (processAll [] initState)) "temperatura"
        = some "Aguardando..." :=
  ⟨by simp, by decide,
    C2_never_updated [] "temperatura" 1000000 999999 (by simp) (by decide)⟩

/-- C3: for every inbound message, if its topic is not in the registry,
or if payload decryption fails, then processing the message leaves every
MetricStore entry (both dictionaries, every metric) exactly as it was. -/
theorem C3_bad_message_no_change (now : ℚ) (msg : MqttMsg) (st : SysState)
    (h : dictGet? TOPICS msg.topic = none ∨ decryptedPayload msg.payload = none) :
    on_message now msg st = st := by
  unfold on_message
  rcases ht : dictGet? TOPICS msg.topic with _ | chave
  · rfl
  · rcases hp : decryptedPayload msg.payload with _ | p
    · rfl
    · rcases h with h | h
      · rw [ht] at h
        exact absurd h (by simp)
      · rw [hp] at h
        exact absurd h (by simp)

theorem C3_witness :
    (dictGet? TOPICS "hospital/cama/oxigenio" = none
      ∨ decryptedPayload ([0] : List Nat) = none)
    ∧ on_message 7 ⟨"hospital/cama/oxigenio", [0]⟩ initState = initState :=
  ⟨Or.inl (by decide),
    C3_bad_message_no_change 7 ⟨"hospital/cama/oxigenio", [0]⟩ initState (Or.inl (by decide))⟩

/-- C6: exhibit of the torn read the code permits. The successful-update
path of `on_message` performs the value write (line 78) and the timestamp
write (line 79) as two separate statements with no lock; the first
conjunct shows the update is exactly their composition. A snapshot that
interleaves between them observes value "36.5" paired with timestamp 0 —
a pair never written together, since the only atomically written pairs in
this scenario are ("Aguardando...", 0) at construction and ("36.5", 10)
by the message — and `api_dados` at that instant reports "36.5". -/
theorem C6_torn_pair_exhibit :
    (updateMetric "temperatura" "36.5" 10 initState
        = applyWrite (.writeTime "temperatura" 10)
            (applyWrite (.writeValue "temperatura" "36.5") initState))
    ∧ dictGet? (applyWrite (.writeValue "temperatura" "36.5") initState).dados "temperatura"
        = some "36.5"
    ∧ dictGet? (applyWrite (.writeValue "temperatura" "36.5") initState).tempos "temperatura"
        = some 0
    ∧ dictGet? (api_dados 10 (applyWrite (.writeValue "temperatura" "36.5") initState))
        "temperatura" = some "36.5"
    ∧ dictGet? initState.dados "temperatura" = some "Aguardando..."
    ∧ dictGet? initState.tempos "temperatura" = some 0
    ∧ dictGet? (updateMetric "temperatura" "36.5" 10 initState).dados "temperatura"
        = some "36.5"
    ∧ dictGet? (updateMetric "temperatura" "36.5" 10 initState).tempos "temperatura"
        = some 10
    ∧ ¬ ((("36.5" : String), (0:ℚ)) = (("Aguardando..." : String), (0:ℚ))
          ∨ (("36.5" : String), (0:ℚ)) = (("36.5" : String), (10:ℚ))) := by
  refine ⟨rfl, by decide, by decide, by decide, by decide, by decide, by decide, by decide, ?_⟩
  decide

/-- C7: the last-update timestamp of every metric is monotonically
non-decreasing across every sequence of processed messages: each
successful update sets the timestamp to the (non-negative) processing
time, and processing times are non-decreasing in arrival order, so the
timestamp after processing any further messages is never earlier than
before them. -/
theorem C7_timestamp_monotone (pre suf : List (ℚ × MqttMsg)) (chave : String)
    (hsorted : (pre ++ suf).Pairwise (fun a b => a.1 ≤ b.1))
    (hnn : ∀ m ∈ pre ++ suf, 0 ≤ m.1) :
    dictGetD (processAll pre initState).tempos chave 0
      ≤ dictGetD (processAll (pre ++ suf) initState).tempos chave 0 := by
  rw [processAll_append]
  apply processAll_tempos_mono suf (processAll pre initState) chave
  · intro m hm
    rcases processAll_tempos_origin pre initState chave with h | ⟨m', hm', h⟩
    · rw [h, initState_tempos_getD]
      exact hnn m (List.mem_append.mpr (Or.inr hm))
    · rw [h]
      exact (List.pairwise_append.mp hsorted).2.2 m' hm' m hm
  · exact (List.pairwise_append.mp hsorted).2.1

theorem C7_witness :
    (([((1:ℚ), (⟨"a", [0]⟩ : MqttMsg))] ++ [((2:ℚ), (⟨"b", [0]⟩ : MqttMsg))]).Pairwise
        (fun a b => a.1 ≤ b.1))
    ∧ (∀ m ∈ ([((1:ℚ), (⟨"a", [0]⟩ : MqttMsg))] ++ [((2:ℚ), (⟨"b", [0]⟩ : MqttMsg))]), 0 ≤ m.1)
    ∧ dictGetD (processAll [((1:ℚ), (⟨"a", [0]⟩ : MqttMsg))] initState).tempos "temperatura" 0
        ≤ dictGetD (processAll ([((1:ℚ), (⟨"a", [0]⟩ : MqttMsg))]
            ++ [((2:ℚ), (⟨"b", [0]⟩ : MqttMsg))]) initState).tempos "temperatura" 0 :=
  ⟨by simp, by simp, C7_timestamp_monotone
    [((1:ℚ), (⟨"a", [0]⟩ : MqttMsg))] [((2:ℚ), (⟨"b", [0]⟩ : MqttMsg))] "temperatura"
    (by simp) (by simp)⟩

/-- C8: the key set (and order) of both dictionaries never changes after
construction: processing any sequence of messages preserves the fixed
four-metric keys of the value dictionary and of the timestamp dictionary,
and a snapshot's output mapping carries exactly the same keys; entries
are only overwritten in place, never added or deleted. -/
theorem C8_keys_fixed (msgs : List (ℚ × MqttMsg)) (S agora : ℚ) :
    (processAll msgs initState).dados.map Prod.fst = dados_cama.map Prod.fst
    ∧ (processAll msgs initState).tempos.map Prod.fst = dados_cama.map Prod.fst
    ∧ (api_dados_at S agora (processAll msgs initState)).map Prod.fst
        = dados_cama.map Prod.fst := by
  have h := keysInv_processAll msgs initState keysInv_init
  exact ⟨h.1, h.2, by rw [api_dados_at_keys]; exact h.1⟩

/-- C9 (counterexample): the sentinel literal of the code is
"Aguardando...", not "awaiting data": the initial value of the
temperatura metric is "Aguardando...", which differs from "awaiting
data", and a stale read also reports "Aguardando...". -/
theorem C9_counterexample :
    dictGet? dados_cama "temperatura" = some "Aguardando..."
    ∧ dictGet? (api_dados 100 (updateMetric "temperatura" "36.5" 10 initState)) "temperatura"
        = some "Aguardando..."
    ∧ ("Aguardando..." : String) ≠ "awaiting data" := by
  refine ⟨by decide, ?_, by decide⟩
  rw [api_dados, api_dados_at_lookup, updateMetric_dados_self]
  unfold dictGetD
  rw [updateMetric_tempos_self]
  simp only [Option.map_some', Option.getD_some]
  rw [if_pos ⟨by norm_num, by norm_num [timeout_segundos]⟩]

/-- C9 (amended): the sentinel string is exactly the literal
"Aguardando...", and that one literal is both the initial value of every
metric at construction and the fallback string returned by the snapshot
for a stale metric. -/
theorem C9_sentinel_literal :
    (dictGet? dados_cama "temperatura" = some "Aguardando..."
      ∧ dictGet? dados_cama "umidade" = some "Aguardando..."
      ∧ dictGet? dados_cama "angulo" = some "Aguardando..."
      ∧ dictGet? dados_cama "alerta" = some "Aguardando...")
    ∧ (∀ (st : SysState) (chave v : String) (S agora : ℚ),
        dictGet? st.dados chave = some v →
        dictGetD st.tempos chave 0 > 0 →
        agora - dictGetD st.tempos chave 0 > S →
        dictGet? (api_dados_at S agora st) chave = some "Aguardando...") := by
  refine ⟨⟨by decide, by decide, by decide, by decide⟩, ?_⟩
  intro st chave v S agora hv h1 h2
  rw [api_dados_at_lookup, hv]
  simp only [Option.map_some']
  rw [if_pos ⟨h1, h2⟩]

theorem C9_witness :
    dictGet? (updateMetric "temperatura" "36.5" 10 initState).dados "temperatura" = some "36.5"
    ∧ dictGetD (updateMetric "temperatura" "36.5" 10 initState).tempos "temperatura" 0 > 0
    ∧ (100:ℚ) - dictGetD (updateMetric "temperatura" "36.5" 10 initState).tempos "temperatura" 0
        > 5
    ∧ dictGet? (api_dados_at 5 100 (updateMetric "temperatura" "36.5" 10 initState))
        "temperatura" = some "Aguardando..." :=
  ⟨by decide, by decide,
    by
      unfold dictGetD
      rw [updateMetric_tempos_self]
      norm_num,
    C9_sentinel_literal.2 (updateMetric "temperatura" "36.5" 10 initState)
      "temperatura" "36.5" 5 100 (by decide) (by decide)
      (by
        unfold dictGetD
        rw [updateMetric_tempos_self]
        norm_num)⟩

/-- C10: in every state reachable by processing any sequence of inbound
messages (at positive wall-clock times) from the initial state, a metric
whose stored timestamp is still zero still stores the sentinel string;
and on that branch the snapshot returns the raw stored value (not the
sentinel literal), which is why the never-updated metric reads as the
sentinel. -/
theorem C10_zero_timestamp_invariant (msgs : List (ℚ × MqttMsg)) (chave : String)
    (hpos : ∀ m ∈ msgs, 0 < m.1)
    (h0 : dictGet? (processAll msgs initState).tempos chave = some 0) :
    dictGet? (processAll msgs initState).dados chave = some "Aguardando..."
    ∧ ∀ S agora : ℚ,
        dictGet? (api_dados_at S agora (processAll msgs initState)) chave
          = dictGet? (processAll msgs initState).dados chave := by
  constructor
  · exact zeroTsInv_processAll msgs initState hpos zeroTsInv_init chave h0
  · intro S agora
    rw [api_dados_at_lookup]
    unfold dictGetD
    rw [h0]
    simp only [Option.getD_some]
    rcases hd : dictGet? (processAll msgs initState).dados chave with _ | v
    · rfl
    · simp only [Option.map_some']
      rw [if_neg (fun h => absurd h.1 (lt_irrefl 0))]

theorem C10_witness :
    (∀ m ∈ ([] : List (ℚ × MqttMsg)), 0 < m.1)
    ∧ dictGet? (processAll [] initState).tempos "temperatura" = some 0
    ∧ dictGet? (processAll [] initState).dados "temperatura" = some "Aguardando..."
    ∧ dictGet? (api_dados_at 7 9 (processAll [] initState)) "temperatura"
        = dictGet? (processAll [] initState).dados "temperatura" :=
  ⟨by simp, by decide,
    (C10_zero_timestamp_invariant [] "temperatura" (by simp) (by decide)).1,
    (C10_zero_timestamp_invariant [] "temperatura" (by simp) (by decide)).2 7 9⟩

theorem C4_witness :
    ((∃ e, payloadDecrypt [0] = .error e) ↔
      (¬ (16 ∣ ([0] : List Nat).length)
        ∨ unpad (cbcDecryptBlocks (roundKeys KEY) IV [0]) 16 = none
        ∨ (∃ pt, unpad (cbcDecryptBlocks (roundKeys KEY) IV [0]) 16 = some pt
            ∧ utf8Decode? pt = none)))
    ∧ ((∃ s, payloadDecrypt [0] = .ok s) ↔
      ¬ (¬ (16 ∣ ([0] : List Nat).length)
        ∨ unpad (cbcDecryptBlocks (roundKeys KEY) IV [0]) 16 = none
        ∨ (∃ pt, unpad (cbcDecryptBlocks (roundKeys KEY) IV [0]) 16 = some pt
            ∧ utf8Decode? pt = none))) :=
  C4_decrypt_error_taxonomy [0]
